import Mathlib

/-!
# gsmmux: GSM 07.10 multiplexer daemon (`gsm0710.c`)

A shallow embedding of the frame encoder, the endpoint fragmenter, the link
engine (`extract_frames`) and the supervisor loop of `main`, followed by the
properties established about them.

Conventions of the embedding.

* A C `int` is a Lean `Int`.  Where the source applies a bit operation to an
  `int`, the operation is carried out on the 32-bit two's-complement pattern
  of the value (`bits`); a store into an `unsigned char` is `% 256`.
* Octets and byte buffers are `Nat` and `List Nat`.
* The serial handle is a log of the bytes written so far together with a
  script that fixes the outcome of the coming `write` calls.
* A table access outside the table is undefined behaviour in C; the embedding
  of a function that indexes a table returns `none` there.
* `make_fcs` is defined in `buffer.c`, not in `gsm0710.c`; it is a parameter
  of every function that transmits a frame.
* What the environment does (results of `write`, `read`, `select`, `open_pty`,
  the clock, the answers of the modem, signals) is an argument of the function
  that meets it.
-/

namespace Gsm0710

/-! ## Constants of `gsm0710.h` -/

/-- Modelled from the spec: the frame delimiter `F_FLAG` of `gsm0710.h`
("the flag octet is 0x7E"). -/
def F_FLAG : Nat := 0x7E

/-- Modelled from the spec: the address-extension bit `EA` of `gsm0710.h`
("Address byte encodes EA=1 | CR<<1 | address<<2"). -/
def EA : Nat := 0x01

/-- Modelled from the spec: the command/response bit `CR` of `gsm0710.h`
("Address byte encodes EA=1 | CR<<1 | address<<2"). -/
def CR : Nat := 0x02

/-- Modelled from the spec: the poll/final bit `PF` of `gsm0710.h`
("P/F bit = 0x10"). -/
def PF : Nat := 0x10

/-- Modelled from the spec: control octet `SABM` of `gsm0710.h` ("SABM=0x2F"). -/
def SABM : Nat := 0x2F

/-- Modelled from the spec: control octet `UA` of `gsm0710.h` ("UA=0x63"). -/
def UA : Nat := 0x63

/-- Modelled from the spec: control octet `DM` of `gsm0710.h` ("DM=0x0F"). -/
def DM : Nat := 0x0F

/-- Modelled from the spec: control octet `DISC` of `gsm0710.h` ("DISC=0x43"). -/
def DISC : Nat := 0x43

/-- Modelled from the spec: control octet `UIH` of `gsm0710.h` ("UIH=0xEF"). -/
def UIH : Nat := 0xEF

/-- Modelled from the spec: control octet `UI` of `gsm0710.h` ("UI=0x03"). -/
def UI : Nat := 0x03

/-- Modelled from the spec: the multiplexer close-down command type `C_CLD` of
`gsm0710.h`; the spec gives `C_CLD | CR = 0xC3`, and `CR = 0x02`. -/
def C_CLD : Nat := 0xC1

/-- `#define WRITE_RETRIES 5`. -/
def WRITE_RETRIES : Int := 5

/-- `#define MAX_CHANNELS 32`. -/
def MAX_CHANNELS : Nat := 32

/-- `#define POLLING_INTERVAL 5`. -/
def POLLING_INTERVAL : Int := 5

/-- `#define MAX_PINGS 4`. -/
def MAX_PINGS : Int := 4

/-! ## Machine integers -/

/-- The 32-bit two's-complement pattern of a C `int`. -/
def bits (x : Int) : Nat := (x % 2 ^ 32).toNat

/-- The conversion `(unsigned char) x` of a C `int`. -/
def u8 (x : Int) : Nat := (x % 256).toNat

/-! ## The serial handle -/

/-- The serial handle: `out` is every byte written to it so far, in order;
`script` fixes what the coming calls of `write` return, one entry per call:
`none` for a complete write, `some c` for a call that returns `c` (a short
count, or a negative value for an error).  Calls beyond the end of the script
are complete writes. -/
structure Serial where
  out : List Nat
  script : List (Option Int)
deriving DecidableEq, Repr

/-- Every scripted `write` is a complete write. -/
def Serial.allOk (s : Serial) : Prop := ∀ r ∈ s.script, r = none

instance (s : Serial) : Decidable s.allOk :=
  inferInstanceAs (Decidable (∀ r ∈ s.script, r = none))

/-- One call `write(serial_fd, buf, n)`: the new handle and the value
returned. -/
def sysWrite (s : Serial) (buf : List Nat) (n : Nat) : Serial × Int :=
  match s.script with
  | [] => ({ out := s.out ++ buf.take n, script := [] }, (n : Int))
  | none :: rest => ({ out := s.out ++ buf.take n, script := rest }, (n : Int))
  | some c :: rest => ({ out := s.out ++ (buf.take n).take c.toNat, script := rest }, c)

/-! ## Frame encoder -/

/-- `write_frame_copy(channel, input, count, type, arg)`, lines 150-206.
`pfx` is the array `prefix[5]` and `sfx0` is `postfix[0]`. -/
def write_frame_copy (make_fcs : List Nat → Nat) (max_frame_size : Int) (s : Serial)
    (channel : Int) (input : List Nat) (count : Int) (type : Nat) (arg : Int) : Serial × Int :=
  let pfx1 : Nat := if arg = 0 then EA else EA ||| CR
  let pfx1 : Nat := (pfx1 ||| ((63 &&& u8 channel) <<< 2)) % 256
  let pfx2 : Nat := type % 256
  let count : Int := min max_frame_size count
  let pfx_length : Nat := if count > 127 then 5 else 4
  let pfx3 : Nat :=
    if count > 127 then ((127 &&& bits count) <<< 1) % 256 else (1 ||| (bits count <<< 1)) % 256
  let pfx4 : Nat := if count > 127 then ((32640 &&& bits count) >>> 7) % 256 else 0
  let pfx : List Nat := [F_FLAG, pfx1, pfx2, pfx3, pfx4]
  let sfx0 : Nat := make_fcs ((pfx.drop 1).take (pfx_length - 1)) % 256
  let w1 := sysWrite s pfx pfx_length
  if w1.2 ≠ (pfx_length : Int) then (w1.1, 0)
  else
    let w2 := if count > 0 then sysWrite w1.1 input count.toNat else (w1.1, count)
    if count > 0 ∧ count ≠ w2.2 then (w2.1, 0)
    else
      let w3 := sysWrite w2.1 [sfx0, F_FLAG] 2
      if w3.2 ≠ 2 then (w3.1, 0) else (w3.1, count)

/-- `write_frame(channel, input, count, type)`, lines 229-283: the C/R bit is
always set. -/
def write_frame (make_fcs : List Nat → Nat) (max_frame_size : Int) (s : Serial)
    (channel : Int) (input : List Nat) (count : Int) (type : Nat) : Serial × Int :=
  let pfx1 : Nat := EA ||| CR
  let pfx1 : Nat := (pfx1 ||| ((63 &&& u8 channel) <<< 2)) % 256
  let pfx2 : Nat := type % 256
  let count : Int := min max_frame_size count
  let pfx_length : Nat := if count > 127 then 5 else 4
  let pfx3 : Nat :=
    if count > 127 then ((127 &&& bits count) <<< 1) % 256 else (1 ||| (bits count <<< 1)) % 256
  let pfx4 : Nat := if count > 127 then ((32640 &&& bits count) >>> 7) % 256 else 0
  let pfx : List Nat := [F_FLAG, pfx1, pfx2, pfx3, pfx4]
  let sfx0 : Nat := make_fcs ((pfx.drop 1).take (pfx_length - 1)) % 256
  let w1 := sysWrite s pfx pfx_length
  if w1.2 ≠ (pfx_length : Int) then (w1.1, 0)
  else
    let w2 := if count > 0 then sysWrite w1.1 input count.toNat else (w1.1, count)
    if count > 0 ∧ count ≠ w2.2 then (w2.1, 0)
    else
      let w3 := sysWrite w2.1 [sfx0, F_FLAG] 2
      if w3.2 ≠ 2 then (w3.1, 0) else (w3.1, count)

/-- The three `write` calls that both encoders end with (prefix, payload when
`count > 0`, postfix), lines 181-205 and 258-282, as a function of the arrays
built before them.  The encoders above inline it, as the source does. -/
def write_parts (s : Serial) (pfx : List Nat) (pfx_length : Nat) (input : List Nat)
    (count : Int) (sfx : List Nat) : Serial × Int :=
  let w1 := sysWrite s pfx pfx_length
  if w1.2 ≠ (pfx_length : Int) then (w1.1, 0)
  else
    let w2 := if count > 0 then sysWrite w1.1 input count.toNat else (w1.1, count)
    if count > 0 ∧ count ≠ w2.2 then (w2.1, 0)
    else
      let w3 := sysWrite w2.1 sfx 2
      if w3.2 ≠ 2 then (w3.1, 0) else (w3.1, count)

/-! ## Endpoint fragmenter -/

/-- The `while` loop of `ussp_recv_data`, lines 304-312, from the values
`written` and `i` of its variables.  The loop need not terminate (a negative
`max_frame_size` makes `written` run away from `len`), so it is given `fuel`
iterations and yields `none` when they do not suffice. -/
def ussp_recv_loop (make_fcs : List Nat → Nat) (max_frame_size : Int) (buf : List Nat)
    (len : Int) (port : Int) : Nat → Serial → Int → Int → Option Serial
  | 0, _, _, _ => none
  | fuel + 1, s, written, i =>
    if written ≠ len ∧ i < WRITE_RETRIES then
      let r := write_frame_copy make_fcs max_frame_size s (port + 1)
        (buf.drop written.toNat) (len - written) UIH 0
      let last := r.2
      ussp_recv_loop make_fcs max_frame_size buf len port fuel r.1 (written + last)
        (if last = 0 then i + 1 else i)
    else some s

/-- `ussp_recv_data(buf, len, port)`, lines 298-320: the serial handle after
the call (the function always returns 0). -/
def ussp_recv_data (make_fcs : List Nat → Nat) (max_frame_size : Int) (fuel : Nat)
    (s : Serial) (buf : List Nat) (len : Int) (port : Int) : Option Serial :=
  ussp_recv_loop make_fcs max_frame_size buf len port fuel s 0 0

/-- The `while` loop of `ussp_recv_data` once more, keeping what it leaves
behind: the serial handle, the final values of `written` and `i`, and for each
call of `write_frame_copy`, in order, the value of `written` it started from
(the offset of the fragment) and the value it returned (`last`). -/
def ussp_recv_trace (make_fcs : List Nat → Nat) (max_frame_size : Int) (buf : List Nat)
    (len : Int) (port : Int) :
    Nat → Serial → Int → Int → Option (Serial × Int × Int × List (Int × Int))
  | 0, _, _, _ => none
  | fuel + 1, s, written, i =>
    if written ≠ len ∧ i < WRITE_RETRIES then
      let r := write_frame_copy make_fcs max_frame_size s (port + 1)
        (buf.drop written.toNat) (len - written) UIH 0
      let last := r.2
      match ussp_recv_trace make_fcs max_frame_size buf len port fuel r.1 (written + last)
          (if last = 0 then i + 1 else i) with
      | none => none
      | some (s1, w1, i1, attempts) => some (s1, w1, i1, (written, last) :: attempts)
    else some (s, written, i, [])

/-- The number of failed attempts in a record of attempts: those whose call of
`write_frame_copy` returned 0. -/
def failed_attempts (attempts : List (Int × Int)) : Nat :=
  (attempts.filter (fun a => a.2 = 0)).length

/-! ## Program state -/

/-- Modelled from the spec: `Channel_Status` of `gsm0710.h` ("Channel entry.
Attributes: `open`, `v24_signals`").  The source stores 0 and 1 in `opened`
and tests it both as `opened == 1` and as `opened` (non-zero), so the field is
kept as an integer. -/
structure Channel_Status where
  opened : Int
  v24_signals : Nat
deriving DecidableEq, Repr

/-- Modelled from the spec: `GSM0710_Frame` of `gsm0710.h` ("Frame. Fields:
address (channel 0..63), control (one octet including optional P/F bit),
length, payload"), as returned by `gsm0710_buffer_get_frame`. -/
structure GSM0710_Frame where
  channel : Nat
  control : Nat
  data_length : Int
  data : List Nat
deriving DecidableEq, Repr

/-- The file-scope variables of `gsm0710.c` that the link engine and the
supervisor use, the locals `pingNumber`, `frameReceiveTime` and `currentTime`
of `main`, and the record of what the program did to its devices:
`ussp_writes` lists the calls `write(ussp_fd[port], buf, n)` as pairs of `port`
and the `n` bytes handed over, `closeDevices_calls` counts the calls of
`closeDevices`. -/
structure Mux where
  terminate : Int
  terminateCount : Int
  max_frame_size : Int
  numOfPorts : Int
  faultTolerant : Int
  restart : Int
  baudrate : Int
  pin_code : Int
  maxfd : Int
  ussp_fd : List Int
  cstatus : List Channel_Status
  serial : Serial
  ussp_writes : List (Nat × List Nat)
  closeDevices_calls : Nat
  pingNumber : Int
  frameReceiveTime : Int
  currentTime : Int
deriving DecidableEq, Repr

/-! ## Link engine -/

/-- The expression `frame->control & ~PF`: `control` is promoted to `int` and
`~PF` is the 32-bit pattern with only the P/F bit clear. -/
def strip_PF (control : Nat) : Nat := control &&& (0xFFFFFFFF ^^^ PF)

/-- Modelled from the spec: the macro `FRAME_IS(type, frame)` of `gsm0710.h`
("stripping P/F, the control-octet switch is"): the control octet without its
P/F bit equals `type`. -/
def FRAME_IS (type : Nat) (frame : GSM0710_Frame) : Bool := strip_PF frame.control == type

/-- The array `version_test` of `extract_frames`, line 677:
`"\x23\x21\x04TEMUXVERSION2\0\0"` with its terminating NUL. -/
def version_test : List Nat :=
  [0x23, 0x21, 0x04, 0x54, 0x45, 0x4D, 0x55, 0x58, 0x56, 0x45, 0x52, 0x53, 0x49, 0x4F, 0x4E,
    0x32, 0, 0, 0]

/-- `ussp_send_data(buf, n, port)`, lines 322-332: one `write` of `n` bytes to
`ussp_fd[port]`, whose result is ignored; returns `n`.  `none` when `port` is
not an index of `ussp_fd`. -/
def ussp_send_data (st : Mux) (buf : List Nat) (n : Int) (port : Int) : Option (Mux × Int) :=
  if 0 ≤ port ∧ port < st.ussp_fd.length then
    some ({ st with ussp_writes := st.ussp_writes ++ [(port.toNat, buf.take n.toNat)] }, n)
  else none

/-- The assignment `cstatus[channel].opened = v`. -/
def set_opened (st : Mux) (channel : Nat) (v : Int) : Mux :=
  { st with cstatus := st.cstatus.modify (fun c => { c with opened := v }) channel }

/-- The call `write_frame(channel, input, count, type)` on the serial handle and
frame size of the state; the link engine and the supervisor ignore its
result. -/
def send_frame (make_fcs : List Nat → Nat) (st : Mux) (channel : Int) (input : List Nat)
    (count : Int) (type : Nat) : Mux :=
  { st with serial := (write_frame make_fcs st.max_frame_size st.serial channel input count type).1 }

/-- The body of the `while` loop of `extract_frames`, lines 684-788, for one
frame returned by `gsm0710_buffer_get_frame`.  `none` when `cstatus` or
`ussp_fd` is indexed outside its bounds. -/
def handle_frame (make_fcs : List Nat → Nat) (st : Mux) (frame : GSM0710_Frame) : Option Mux :=
  if FRAME_IS UI frame || FRAME_IS UIH frame then
    if frame.channel > 0 then
      (ussp_send_data st frame.data frame.data_length ((frame.channel : Int) - 1)).map (·.1)
    else some st
  else if strip_PF frame.control = UA then
    match st.cstatus[frame.channel]? with
    | none => none
    | some c =>
      if c.opened = 1 then some (set_opened st frame.channel 0)
      else if frame.channel = 0 then
        some (send_frame make_fcs (set_opened st frame.channel 1) 0 version_test 18 UIH)
      else some (set_opened st frame.channel 1)
  else if strip_PF frame.control = DM then
    match st.cstatus[frame.channel]? with
    | none => none
    | some c =>
      if c.opened ≠ 0 then some (set_opened st frame.channel 0)
      else if frame.channel = 0 then some { st with terminate := 1, terminateCount := -1 }
      else some st
  else if strip_PF frame.control = DISC then
    match st.cstatus[frame.channel]? with
    | none => none
    | some c =>
      if c.opened ≠ 0 then
        let st1 := send_frame make_fcs (set_opened st frame.channel 0) frame.channel [] 0
          (UA ||| PF)
        if frame.channel = 0 then
          if st1.faultTolerant ≠ 0 then some { st1 with restart := 1 }
          else some { st1 with terminate := 1, terminateCount := -1 }
        else some st1
      else some (send_frame make_fcs st frame.channel [] 0 (DM ||| PF))
  else if strip_PF frame.control = SABM then
    match st.cstatus[frame.channel]? with
    | none => none
    | some _ =>
      some (send_frame make_fcs (set_opened st frame.channel 1) frame.channel [] 0 (UA ||| PF))
  else some st

/-- `extract_frames(buf)`, lines 674-793, on the frames that
`gsm0710_buffer_get_frame` (of `buffer.c`) returns one after the other until
it returns `NULL`: the state after handling them and `framesExtracted`. -/
def extract_frames (make_fcs : List Nat → Nat) :
    Mux → List GSM0710_Frame → Option (Mux × Int)
  | st, [] => some (st, 0)
  | st, frame :: rest =>
    match handle_frame make_fcs st frame with
    | none => none
    | some st1 =>
      match extract_frames make_fcs st1 rest with
      | none => none
      | some (st2, n) => some (st2, n + 1)

/-! ## Modem bringup -/

/-- The bytes of a C string literal, without the terminating NUL. -/
def cstr (s : String) : List Nat := s.toList.map Char.toNat

/-- The `for` loop of `findInBuf`, lines 345-355, with `n` iterations left,
from the values `i` and `needleMatchedPos` of its variables; a byte past the
end of `needle` is its terminating NUL. -/
def findInBuf_loop (buf needle : List Nat) : Nat → Nat → Nat → Int
  | 0, _, _ => 0
  | n + 1, i, needleMatchedPos =>
    if needle.getD needleMatchedPos 0 = buf.getD i 0 then
      if needle.getD (needleMatchedPos + 1) 0 = 0 then 1
      else findInBuf_loop buf needle n (i + 1) (needleMatchedPos + 1)
    else findInBuf_loop buf needle n (i + 1) 0

/-- `findInBuf(buf, len, needle)`, lines 336-357. -/
def findInBuf (buf : List Nat) (len : Int) (needle : List Nat) : Int :=
  if needle.getD 0 0 = 0 then 1 else findInBuf_loop buf needle len.toNat 0 0

/-- The polling loop of `at_command`, lines 390-416, with `n` iterations left:
each entry of `replies` is what one iteration finds, `none` when `select`
reports nothing to read and `some (len, buf)` for a `read` that returns `len`
and leaves `buf`; iterations beyond the end of `replies` find nothing. -/
def at_command_poll : Nat → List (Option (Int × List Nat)) → Int
  | 0, _ => 0
  | _ + 1, [] => 0
  | n + 1, none :: rest => at_command_poll n rest
  | n + 1, some (len, buf) :: rest =>
    if findInBuf buf len (cstr "OK") ≠ 0 then 1
    else if findInBuf buf len (cstr "ERROR") ≠ 0 then 0
    else at_command_poll n rest

/-- `at_command(fd, cmd, to)`, lines 369-419, on the serial handle: the command
is written, then up to 100 polls look for `OK` or `ERROR`.  `none` when the
`assert(wrote > 0)` fails. -/
def at_command (s : Serial) (cmd : List Nat) (replies : List (Option (Int × List Nat))) :
    Option (Serial × Int) :=
  let w := sysWrite s cmd cmd.length
  if w.2 > 0 then some (w.1, at_command_poll 100 replies) else none

/-- The array `baudrates`, lines 134-135. -/
def baudrates : List Int := [0, 9600, 19200, 38400, 57600, 115200, 230400, 460800]

/-- The `for` loop of `index_of_baud`, lines 477-480, from index `i` over the
rest of the array. -/
def index_of_baud_loop (baudrate : Int) : List Int → Int → Int
  | [], _ => 0
  | b :: rest, i => if b = baudrate then i else index_of_baud_loop baudrate rest (i + 1)

/-- `index_of_baud(baudrate)`, lines 473-482. -/
def index_of_baud (baudrate : Int) : Int := index_of_baud_loop baudrate baudrates 0

/-- The argument `close_mux` of the close-down frame, `{ C_CLD | CR, 1 }`,
lines 879 and 1017. -/
def close_mux : List Nat := [C_CLD ||| CR, 1]

/-- What the modem answers during one call of `initGeneric`: the polls seen by
the first `AT`, by the `AT` after the close-down frame, by `AT+CPIN` and by
`AT+CMUX`. -/
structure ModemReplies where
  at1 : List (Option (Int × List Nat))
  at2 : List (Option (Int × List Nat))
  cpin : List (Option (Int × List Nat))
  cmux : List (Option (Int × List Nat))
deriving DecidableEq, Repr

/-- The array `mux_command` of `initGeneric` once it is filled, lines 878-885. -/
def mux_command (baudrate : Int) : List Nat :=
  if index_of_baud baudrate ≠ 0 then
    cstr "AT+CMUX=0,0," ++ cstr (toString (index_of_baud baudrate)) ++ cstr "\r\n"
  else cstr "AT+CMUX=0\r\n"

/-- `initGeneric()`, lines 876-918, on the serial handle. -/
def initGeneric (make_fcs : List Nat → Nat) (max_frame_size baudrate pin_code : Int)
    (s : Serial) (m : ModemReplies) : Option (Serial × Int) :=
  match at_command s (cstr "AT\r\n") m.at1 with
  | none => none
  | some (s1, r1) =>
    let s2? : Option Serial :=
      if r1 = 0 then
        (at_command (write_frame make_fcs max_frame_size s1 0 close_mux 2 UIH).1
          (cstr "AT\r\n") m.at2).map (·.1)
      else some s1
    match s2? with
    | none => none
    | some s2 =>
      let s3? : Option Serial :=
        if pin_code > 0 ∧ pin_code < 10000 then
          (at_command s2 (cstr "AT+CPIN=" ++ cstr (toString pin_code) ++ cstr "\r\n")
            m.cpin).map (·.1)
        else some s2
      match s3? with
      | none => none
      | some s3 =>
        match at_command s3 (mux_command baudrate) m.cmux with
        | none => none
        | some (s4, r4) => if r4 = 0 then some (s4, -1) else some (s4, 0)

/-- Modelled from the spec: the V.24 signal bits `S_DV`, `S_RTR`, `S_RTC` of
`gsm0710.h` ("v24_signals initialised to S_DV|S_RTR|S_RTC|EA"), with the values
of the 07.10 modem status octet. -/
def S_DV : Nat := 0x80

/-- Modelled from the spec: see `S_DV`. -/
def S_RTR : Nat := 0x08

/-- Modelled from the spec: see `S_DV`. -/
def S_RTC : Nat := 0x04

/-- What the environment does during one call of `openDevicesAndMuxMode`:
the descriptors returned by `open_pty` for the endpoints in turn, the one
returned by `open_serialport`, the answers of the modem, the clock read after
a successful bringup, and whether a terminating signal is handled before the
restart loop tests `terminate` again. -/
structure Bringup where
  pty_fds : List Int
  serial_fd : Int
  modem : ModemReplies
  now : Int
  signal : Bool
deriving DecidableEq, Repr

/-- The first `for` loop of `openDevicesAndMuxMode`, lines 926-935, with `n`
iterations left, from index `i`: the state, and whether an `open_pty` failed.
`none` when a table is indexed outside its bounds or `fds` has no entry for
an endpoint. -/
def open_ptys : Nat → Nat → List Int → Mux → Option (Mux × Bool)
  | 0, _, _, st => some (st, false)
  | _ + 1, _, [], _ => none
  | n + 1, i, fd :: fds, st =>
    if i < st.ussp_fd.length then
      let st1 := { st with ussp_fd := st.ussp_fd.set i fd }
      if fd < 0 then some (st1, true)
      else
        let st2 := if fd > st1.maxfd then { st1 with maxfd := fd } else st1
        if i < st2.cstatus.length then
          let c : Channel_Status := ⟨0, S_DV ||| S_RTR ||| S_RTC ||| EA⟩
          open_ptys n (i + 1) fds { st2 with cstatus := st2.cstatus.set i c }
        else none
    else none

/-- The second `for` loop of `openDevicesAndMuxMode`, lines 969-981, with `n`
iterations left, from channel `i`: a `SABM|PF` per logical channel. -/
def send_sabms (make_fcs : List Nat → Nat) : Nat → Int → Mux → Mux
  | 0, _, st => st
  | n + 1, i, st => send_sabms make_fcs n (i + 1) (send_frame make_fcs st i [] 0 (SABM ||| PF))

/-- `openDevicesAndMuxMode()`, lines 920-984: the state and the value
returned. -/
def openDevicesAndMuxMode (make_fcs : List Nat → Nat) (st : Mux) (env : Bringup) :
    Option (Mux × Int) :=
  match open_ptys st.numOfPorts.toNat 0 env.pty_fds { st with maxfd := 0 } with
  | none => none
  | some (st1, true) => some (st1, -1)
  | some (st1, false) =>
    if st1.numOfPorts.toNat < st1.cstatus.length then
      let st2 := set_opened st1 st1.numOfPorts.toNat 0
      if env.serial_fd < 0 then some (st2, -1)
      else
        let st3 := if env.serial_fd > st2.maxfd then { st2 with maxfd := env.serial_fd } else st2
        match initGeneric make_fcs st3.max_frame_size st3.baudrate st3.pin_code st3.serial
            env.modem with
        | none => none
        | some (s4, ret) =>
          let st4 := { st3 with serial := s4 }
          if ret ≠ 0 then some (st4, ret)
          else
            let st5 := { st4 with terminateCount := st4.numOfPorts }
            let st6 := send_frame make_fcs st5 0 [] 0 (SABM ||| PF)
            some (send_sabms make_fcs st6.numOfPorts.toNat 1 st6, ret)
    else none

/-- `closeDevices()`, lines 986-1000: the handles are closed; what the model
keeps of it is that it was called. -/
def closeDevices (st : Mux) : Mux :=
  { st with closeDevices_calls := st.closeDevices_calls + 1 }

/-! ## Supervisor loop -/

/-- The array `ping_test` of `main`, line 1008: `"\x23\x09PING"` with its
terminating NUL. -/
def ping_test : List Nat := [0x23, 0x09, 0x50, 0x49, 0x4E, 0x47, 0]

/-- `#define PING_TEST_LEN 6`. -/
def PING_TEST_LEN : Int := 6

/-- What one endpoint offers in one iteration of the supervisor loop: whether
`FD_ISSET` holds for it, the value its `read` returns, the buffer `buf` after
the `read`, and the descriptor `open_pty` returns should it be reopened. -/
structure PortEvent where
  ready : Bool
  nread : Int
  data : List Nat
  reopen : Int
deriving DecidableEq, Repr

/-- What the environment offers in one iteration of the supervisor loop: whether
a terminating signal (`SIGINT`, `SIGUSR1`, `SIGTERM`) was handled since the
previous one, the value of `select`, the clock, whether the serial handle is
readable, the free space of the receive buffer, the value of the serial
`read`, the frames that `gsm0710_buffer_get_frame` yields once the bytes read
are in the buffer, the endpoints in order, and the environment of the bringup
attempts should the iteration restart the multiplexer. -/
structure Wake where
  signal : Bool
  sel : Int
  now : Int
  serial_ready : Bool
  size : Int
  serial_len : Int
  frames : List GSM0710_Frame
  ports : List PortEvent
  bringups : List Bringup
deriving DecidableEq, Repr

/-- The serial branch of the loop body, lines 1147-1166. -/
def main_serial (make_fcs : List Nat → Nat) (st : Mux) (w : Wake) : Option Mux :=
  if w.size > 0 ∧ w.serial_len > 0 then
    match extract_frames make_fcs st w.frames with
    | none => none
    | some (st1, framesExtracted) =>
      if framesExtracted > 0 ∧ st1.faultTolerant ≠ 0 then
        some { st1 with frameReceiveTime := st1.currentTime, pingNumber := 1 }
      else some st1
  else some st

/-- The body of the loop over the virtual ports, lines 1170-1190, for endpoint
`i`.  The assignment in line 1171 is `len = (read(...) > 0)`. -/
def main_port (make_fcs : List Nat → Nat) (fuel : Nat) (st : Mux) (i : Nat) (e : PortEvent) :
    Option Mux :=
  if i < st.ussp_fd.length then
    if e.ready then
      let len : Int := if e.nread > 0 then 1 else 0
      let st1? : Option Mux :=
        if len ≠ 0 then
          (ussp_recv_data make_fcs st.max_frame_size fuel st.serial e.data len i).map
            (fun s => { st with serial := s })
        else some st
      match st1? with
      | none => none
      | some st1 =>
        if len < 0 then
          let st2 := { st1 with ussp_fd := st1.ussp_fd.set i e.reopen }
          if e.reopen < 0 then some { st2 with terminate := 1 }
          else if e.reopen > st2.maxfd then some { st2 with maxfd := e.reopen }
          else some st2
        else some st1
    else some st
  else none

/-- The loop over the virtual ports, lines 1169-1191, with `n` iterations left,
from endpoint `i`; an endpoint without an entry in `ports` is not ready. -/
def main_ports (make_fcs : List Nat → Nat) (fuel : Nat) (ports : List PortEvent) :
    Nat → Nat → Mux → Option Mux
  | 0, _, st => some st
  | n + 1, i, st =>
    match main_port make_fcs fuel st i (ports.getD i ⟨false, 0, [], 0⟩) with
    | none => none
    | some st1 => main_ports make_fcs fuel ports n (i + 1) st1

/-- The block `if (terminate) { ... }`, lines 1194-1210. -/
def main_terminate (make_fcs : List Nat → Nat) (st : Mux) : Option Mux :=
  if st.terminateCount > 0 then
    match st.cstatus[st.terminateCount.toNat]? with
    | none => none
    | some c =>
      let st1 :=
        if c.opened ≠ 0 then send_frame make_fcs st st.terminateCount [] 0 (DISC ||| PF)
        else st
      some { st1 with terminateCount := st1.terminateCount - 1 }
  else if st.terminateCount = 0 then
    let st1 := send_frame make_fcs st 0 close_mux 2 UIH
    some { st1 with terminateCount := st1.terminateCount - 1 }
  else some { st with terminateCount := st.terminateCount - 1 }

/-- The `do ... while (!terminate)` loop of the restart, lines 1221-1233, over
the environments of the attempts.  `none` when the attempts listed do not
bring the loop to its end. -/
def main_restart (make_fcs : List Nat → Nat) : List Bringup → Mux → Option Mux
  | [], _ => none
  | env :: rest, st =>
    let st1 := { closeDevices st with terminateCount := -1 }
    match openDevicesAndMuxMode make_fcs st1 env with
    | none => none
    | some (st2, ret) =>
      if ret = 0 then some { st2 with frameReceiveTime := env.now, pingNumber := 1 }
      else
        let st3 := if env.signal then { st2 with terminate := 1 } else st2
        if st3.terminate ≠ 0 then some st3 else main_restart make_fcs rest st3

/-- The block `else if (faultTolerant) { ... }`, lines 1211-1244. -/
def main_watchdog (make_fcs : List Nat → Nat) (st : Mux) (bringups : List Bringup) :
    Option Mux :=
  if st.restart ≠ 0 ∨ st.pingNumber ≥ MAX_PINGS then
    main_restart make_fcs bringups (if st.restart = 0 then st else { st with restart := 0 })
  else if st.frameReceiveTime + POLLING_INTERVAL * st.pingNumber < st.currentTime then
    let st1 := send_frame make_fcs st 0 ping_test PING_TEST_LEN UIH
    some { st1 with pingNumber := st1.pingNumber + 1 }
  else some st

/-- One execution of the body of the supervisor loop, lines 1131-1245. -/
def main_iteration (make_fcs : List Nat → Nat) (fuel : Nat) (st : Mux) (w : Wake) :
    Option Mux :=
  let st0 := if w.signal then { st with terminate := 1 } else st
  let st1 := if st0.faultTolerant ≠ 0 then { st0 with currentTime := w.now } else st0
  let st2? : Option Mux :=
    if w.sel > 0 then
      match (if w.serial_ready then main_serial make_fcs st1 w else some st1) with
      | none => none
      | some s => main_ports make_fcs fuel w.ports s.numOfPorts.toNat 0 s
    else some st1
  match st2? with
  | none => none
  | some st2 =>
    if st2.terminate ≠ 0 then main_terminate make_fcs st2
    else if st2.faultTolerant ≠ 0 then main_watchdog make_fcs st2 w.bringups
    else some st2

/-- The condition of the supervisor loop, line 1130:
`!terminate || terminateCount >= -1`. -/
def main_continues (st : Mux) : Prop := st.terminate = 0 ∨ st.terminateCount ≥ -1

instance (st : Mux) : Decidable (main_continues st) :=
  inferInstanceAs (Decidable (st.terminate = 0 ∨ st.terminateCount ≥ -1))

/-- The supervisor loop, lines 1130-1246, over the wakes the environment
offers: the state in which the loop is left and the number of iterations
made.  `none` when the wakes listed do not bring the loop to its end. -/
def main_loop (make_fcs : List Nat → Nat) (fuel : Nat) : List Wake → Mux → Option (Mux × Nat)
  | ws, st =>
    if main_continues st then
      match ws with
      | [] => none
      | w :: rest =>
        match main_iteration make_fcs fuel st w with
        | none => none
        | some st1 => (main_loop make_fcs fuel rest st1).map (fun r => (r.1, r.2 + 1))
    else some (st, 0)

/-- The state of the supervisor loop after it has gone through the wakes
listed; `none` when it was left, or could not go on, before their end. -/
def main_after (make_fcs : List Nat → Nat) (fuel : Nat) : List Wake → Mux → Option Mux
  | [], st => some st
  | w :: rest, st =>
    if main_continues st then
      match main_iteration make_fcs fuel st w with
      | none => none
      | some st1 => main_after make_fcs fuel rest st1
    else none

/-- A wake on which `select` times out: nothing is readable and no signal was
handled; the clock shows `now`. -/
def idle_wake (now : Int) : Wake :=
  { signal := false, sel := 0, now := now, serial_ready := false, size := 0, serial_len := 0,
    frames := [], ports := [], bringups := [] }

/-! ## Concrete data for the scenarios -/

/-- The 18 bytes that `write_frame(0, version_test, 18, UIH)` is asked to send:
`23 21 04 'TEMUXVERSION2' 00 00`. -/
def version_blob : List Nat :=
  [0x23, 0x21, 0x04]
    ++ [0x54, 0x45, 0x4D, 0x55, 0x58, 0x56, 0x45, 0x52, 0x53, 0x49, 0x4F, 0x4E, 0x32] ++ [0, 0]

/-- A state of the running multiplexer with two endpoints (`N = 2`): control
channel and channel 1 open, channel 2 closed, default frame size 31, nothing
written yet, every coming write complete. -/
def demo_state : Mux :=
  { terminate := 0, terminateCount := 2, max_frame_size := 31, numOfPorts := 2,
    faultTolerant := 0, restart := 0, baudrate := 115200, pin_code := 0, maxfd := 5,
    ussp_fd := [3, 4], cstatus := [⟨1, 0x8D⟩, ⟨1, 0x8D⟩, ⟨0, 0x8D⟩],
    serial := ⟨[], []⟩, ussp_writes := [], closeDevices_calls := 0, pingNumber := 1,
    frameReceiveTime := 0, currentTime := 0 }

/-! ## The frame layout of the specification -/

/-- The address octet in the words of the specification:
`0x01 | (C/R ? 0x02 : 0) | ((channel & 63) << 2)`. -/
def spec_addr (channel : Int) (cr : Bool) : Nat :=
  0x01 ||| (if cr then 0x02 else 0) ||| ((bits channel &&& 63) <<< 2)

/-- The length field in the words of the specification: one octet
`(n << 1) | 1` when `n <= 127`, otherwise the two octets `(n & 0x7F) << 1` and
`(n >> 7) & 0xFF`. -/
def spec_len (n : Nat) : List Nat :=
  if n ≤ 127 then [(n <<< 1) ||| 1] else [(n &&& 0x7F) <<< 1, (n >>> 7) &&& 0xFF]

/-- The byte sequence in the words of the specification:
`0x7E, addr, type, LEN, payload, make_fcs(addr, type, LEN), 0x7E`, where `LEN`
encodes `n` and the FCS covers the address, control and length octets only. -/
def spec_bytes (make_fcs : List Nat → Nat) (channel : Int) (type : Nat) (n : Nat)
    (payload : List Nat) (cr : Bool) : List Nat :=
  [0x7E, spec_addr channel cr, type] ++ spec_len n ++ payload
    ++ [make_fcs ([spec_addr channel cr, type] ++ spec_len n) % 256, 0x7E]

/-- A frame carrying `payload`: the byte sequence above with the length field
encoding the length of the payload. -/
def spec_frame (make_fcs : List Nat → Nat) (channel : Int) (type : Nat) (payload : List Nat)
    (cr : Bool) : List Nat :=
  spec_bytes make_fcs channel type payload.length payload cr

/-! ## The 07.10 frame check sequence -/

/-- Modelled from the spec: one bit step in the construction of the table of
`buffer.c`, the reversed CRC-8 with polynomial `0xE0`. -/
def crc_round (d : Nat) : Nat := if d &&& 1 = 1 then (d >>> 1) ^^^ 0xE0 else d >>> 1

/-- Modelled from the spec: the 256-entry table of `buffer.c` ("precomputed
reversed-CRC8 table for the 07.10 FCS polynomial"), entry `i`. -/
def r_crctable (i : Nat) : Nat :=
  crc_round (crc_round (crc_round (crc_round (crc_round (crc_round (crc_round (crc_round i)))))))

/-- Modelled from the spec: `make_fcs` of `buffer.c` ("the transmitted FCS is
`0xFF XOR table-iterated-checksum`").  The properties below hold for every
function in the place of `make_fcs`; this one instantiates them on concrete
frames. -/
def make_fcs_0710 (input : List Nat) : Nat :=
  0xFF - input.foldl (fun fcs b => r_crctable (fcs ^^^ (b % 256))) 0xFF

/-- The ping frame of the specification: a UIH frame on channel 0 with the
6-byte payload `23 09 50 49 4E 47`. -/
def ping_frame (make_fcs : List Nat → Nat) : List Nat :=
  spec_frame make_fcs 0 0xEF [0x23, 0x09, 0x50, 0x49, 0x4E, 0x47] true

/-- A modem that answers `OK` to the first poll of every command. -/
def modem_ok : ModemReplies :=
  { at1 := [some (2, cstr "OK")], at2 := [], cpin := [], cmux := [some (2, cstr "OK")] }

/-- A bringup that succeeds at time `now`: both endpoints and the serial port
open, the modem answers `OK`, no signal arrives. -/
def bringup_ok (now : Int) : Bringup :=
  { pty_fds := [3, 4], serial_fd := 5, modem := modem_ok, now := now, signal := false }

/-- The running multiplexer of `demo_state` in fault-tolerant mode, the last
frame received at time 0 and no ping sent since. -/
def watch_state : Mux := { demo_state with faultTolerant := 1 }

/-- The states of a watch that started at `pingNumber = 1` with the serial log
`out0` and `c0` calls of `closeDevices`, and has not restarted since:
fault-tolerant mode, no termination or restart requested, `pingNumber` between
1 and `MAX_PINGS`, and one ping frame in the log per ping counted. -/
def WatchInv (make_fcs : List Nat → Nat) (c0 : Nat) (out0 : List Nat) (st : Mux) : Prop :=
  st.faultTolerant ≠ 0 ∧ st.terminate = 0 ∧ st.restart = 0
    ∧ 1 ≤ st.pingNumber ∧ st.pingNumber ≤ MAX_PINGS
    ∧ st.serial.allOk ∧ 6 ≤ st.max_frame_size ∧ st.closeDevices_calls = c0
    ∧ st.serial.out
        = out0 ++ (List.replicate (st.pingNumber - 1).toNat (ping_frame make_fcs)).flatten

/-! ## The stepwise close of the specification -/

/-- The frames of the stepwise close in the words of the specification, from
channel `c` down: a zero-length `DISC|PF` for each channel `c, c-1, ..., 1` that
is open in the channel table, then one UIH frame on channel 0 with payload
`C3 01`. -/
def close_frames (make_fcs : List Nat → Nat) (cstatus : List Channel_Status) : Nat → List Nat
  | 0 => spec_frame make_fcs 0 0xEF [0xC3, 0x01] true
  | c + 1 =>
    (match cstatus[c + 1]? with
      | some ch => if ch.opened ≠ 0 then spec_frame make_fcs (c + 1 : Nat) 0x53 [] true else []
      | none => [])
    ++ close_frames make_fcs cstatus c

/-- The frames of the stepwise close when `terminateCount` is `k`: those from
channel `k` down when `k >= 0`, none on the fatal path `k < 0`. -/
def stepwise_close_frames (make_fcs : List Nat → Nat) (cstatus : List Channel_Status)
    (k : Int) : List Nat :=
  if k < 0 then [] else close_frames make_fcs cstatus k.toNat

/-! ## The input handling of an iteration -/

/-- The body of the supervisor loop up to the test `if (terminate)` of line
1194: the signals handled since the previous iteration, the clock of lines
1141-1144, the serial branch and the loop over the endpoints, lines 1131-1192.
`main_iteration` goes on from the state it yields with the terminate block or
the watchdog block. -/
def main_input (make_fcs : List Nat → Nat) (fuel : Nat) (st : Mux) (w : Wake) : Option Mux :=
  let st0 := if w.signal then { st with terminate := 1 } else st
  let st1 := if st0.faultTolerant ≠ 0 then { st0 with currentTime := w.now } else st0
  if w.sel > 0 then
    match (if w.serial_ready then main_serial make_fcs st1 w else some st1) with
    | none => none
    | some s => main_ports make_fcs fuel w.ports s.numOfPorts.toNat 0 s
  else some st1

/-- The iteration receives a frame: `select` reports input, the serial handle
is readable, the `read` brings bytes into a buffer with room, and
`gsm0710_buffer_get_frame` yields at least one frame, so that
`extract_frames(in_buf) > 0` in line 1160. -/
def receives_frame (w : Wake) : Prop :=
  w.sel > 0 ∧ w.serial_ready = true ∧ w.size > 0 ∧ w.serial_len > 0 ∧ w.frames ≠ []

instance (w : Wake) : Decidable (receives_frame w) :=
  inferInstanceAs
    (Decidable (w.sel > 0 ∧ w.serial_ready = true ∧ w.size > 0 ∧ w.serial_len > 0 ∧ w.frames ≠ []))

/-- The settings of the multiplexer, which only the command line fixes. -/
def Mux.config (st : Mux) : Int × Int × Int × Int × Int :=
  (st.max_frame_size, st.numOfPorts, st.faultTolerant, st.baudrate, st.pin_code)

/-- The variables of the watchdog and the count of the restarts made. -/
def Mux.watch (st : Mux) : Int × Int × Int × Nat :=
  (st.pingNumber, st.frameReceiveTime, st.currentTime, st.closeDevices_calls)

/-! ## Transmissions by call site -/

/-- What the program hands to the serial handle, by the kind of call site:
`frame` is a call `write_frame(channel, input, count, type)`, `data` a call
`ussp_recv_data(buf, len, port)` (whose frames go through
`write_frame_copy(..., UIH, 0)`), `command` the `write(fd, cmd, strlen(cmd))`
of `at_command`. -/
inductive Emission where
  | frame (channel : Int) (input : List Nat) (count : Int) (type : Nat)
  | data (buf : List Nat) (len : Int) (port : Int)
  | command (cmd : List Nat)
deriving DecidableEq, Repr

/-- The serial handle after one transmission; `none` when the fragmenter runs
out of `fuel`. -/
def emit (make_fcs : List Nat → Nat) (max_frame_size : Int) (fuel : Nat) (s : Serial) :
    Emission → Option Serial
  | .frame channel input count type =>
    some (write_frame make_fcs max_frame_size s channel input count type).1
  | .data buf len port => ussp_recv_data make_fcs max_frame_size fuel s buf len port
  | .command cmd => some (sysWrite s cmd cmd.length).1

/-- The serial handle after a sequence of transmissions, in order. -/
def emit_all (make_fcs : List Nat → Nat) (max_frame_size : Int) (fuel : Nat) :
    List Emission → Serial → Option Serial
  | [], s => some s
  | e :: rest, s =>
    match emit make_fcs max_frame_size fuel s e with
    | none => none
    | some s1 => emit_all make_fcs max_frame_size fuel rest s1

/-- The transmissions the specification lists: through `write_frame` a
`SABM|PF`, `DISC|PF`, `UA|PF` or `DM|PF` frame or a UIH frame on the control
channel; the forwarding of the one byte that line 1172 hands over from an
endpoint; and the AT commands of the bringup. -/
def listed_emission (baudrate pin_code : Int) : Emission → Prop
  | .frame channel _ _ type =>
    type = SABM ||| PF ∨ type = DISC ||| PF ∨ type = UA ||| PF ∨ type = DM ||| PF
      ∨ (type = UIH ∧ channel = 0)
  | .data _ len port => len = 1 ∧ 0 ≤ port
  | .command cmd =>
    cmd = cstr "AT\r\n" ∨ cmd = cstr "AT+CPIN=" ++ cstr (toString pin_code) ++ cstr "\r\n"
      ∨ cmd = mux_command baudrate

/-- From `st` to `st'` the settings are kept and the serial handle of `st'` is
the one of `st` after a sequence of listed transmissions. -/
def Transmits (make_fcs : List Nat → Nat) (fuel : Nat) (st st' : Mux) : Prop :=
  st'.config = st.config
    ∧ ∃ log : List Emission,
        emit_all make_fcs st.max_frame_size fuel log st.serial = some st'.serial
        ∧ ∀ e ∈ log, listed_emission st.baudrate st.pin_code e

theorem land63 (x : Nat) : 63 &&& x = x % 64 := by
  rw [Nat.land_comm]; exact Nat.and_pow_two_sub_one_eq_mod x 6

theorem land127 (x : Nat) : 127 &&& x = x % 128 := by
  rw [Nat.land_comm]; exact Nat.and_pow_two_sub_one_eq_mod x 7

theorem land255 (x : Nat) : x &&& 255 = x % 256 := Nat.and_pow_two_sub_one_eq_mod x 8

theorem addr_cr_small : ∀ y < 64, (3 ||| (y <<< 2)) % 256 = 3 ||| (y <<< 2) := by decide

theorem addr_nocr_small : ∀ y < 64, (1 ||| (y <<< 2)) % 256 = 1 ||| (y <<< 2) := by decide

theorem len_small : ∀ c < 128, (1 ||| (c <<< 1)) % 256 = (c <<< 1) ||| 1 := by decide

theorem u8_land63 (c : Int) : 63 &&& u8 c = bits c &&& 63 := by
  rw [land63, Nat.land_comm, land63]
  unfold u8 bits
  have h1 : 0 ≤ c % 256 := Int.emod_nonneg _ (by norm_num)
  have h2 : 0 ≤ c % 2 ^ 32 := Int.emod_nonneg _ (by norm_num)
  zify
  rw [Int.toNat_of_nonneg h1, Int.toNat_of_nonneg h2]
  omega

theorem bits_of_nonneg (c : Int) (h : 0 ≤ c) : bits c = c.toNat % 2 ^ 32 := by
  unfold bits
  have h2 : 0 ≤ c % 2 ^ 32 := Int.emod_nonneg _ (by norm_num)
  zify
  rw [Int.toNat_of_nonneg h2, Int.toNat_of_nonneg h]

theorem mask_bit (i : Nat) : Nat.testBit 32640 (7 + i) = Nat.testBit 255 i := by
  have h := @Nat.testBit_shiftLeft 7 (7 + i) 255
  have e : (255 : Nat) <<< 7 = 32640 := by decide
  rw [e] at h
  rw [h]
  simp

theorem shift_mask (x : Nat) : (32640 &&& x) >>> 7 = (x >>> 7) &&& 255 := by
  apply Nat.eq_of_testBit_eq
  intro i
  simp only [Nat.testBit_shiftRight, Nat.testBit_and, mask_bit, Bool.and_comm]

theorem len_hi (m : Nat) : ((32640 &&& (m % 2 ^ 32)) >>> 7) % 256 = (m >>> 7) &&& 0xFF := by
  rw [shift_mask, land255, land255, Nat.shiftRight_eq_div_pow, Nat.shiftRight_eq_div_pow]
  omega

theorem len_lo (m : Nat) : ((127 &&& (m % 2 ^ 32)) <<< 1) % 256 = (m &&& 0x7F) <<< 1 := by
  rw [land127, Nat.land_comm, land127, Nat.shiftLeft_eq, Nat.shiftLeft_eq]
  omega

/-- The address octet stored by the encoders is the one of the specification. -/
theorem addr_eq (channel : Int) (cr : Bool) :
    ((if cr then EA ||| CR else EA) ||| ((63 &&& u8 channel) <<< 2)) % 256
      = spec_addr channel cr := by
  have hlt : bits channel &&& 63 < 64 := by
    rw [Nat.land_comm, land63]; exact Nat.mod_lt _ (by norm_num)
  rw [u8_land63]
  cases cr
  · simpa [spec_addr, EA] using addr_nocr_small _ hlt
  · simpa [spec_addr, EA, CR] using addr_cr_small _ hlt

/-- The length octets stored by the encoders are those of the specification. -/
theorem len_eq (count : Int) (h : 0 ≤ count) :
    (if count > 127 then
        [((127 &&& bits count) <<< 1) % 256, ((32640 &&& bits count) >>> 7) % 256]
      else [(1 ||| (bits count <<< 1)) % 256]) = spec_len count.toNat := by
  rw [bits_of_nonneg count h]
  unfold spec_len
  by_cases hc : count > 127
  · have : ¬ count.toNat ≤ 127 := by omega
    rw [if_pos hc, if_neg this, len_lo, len_hi]
  · have h1 : count.toNat ≤ 127 := by omega
    have h2 : count.toNat % 2 ^ 32 = count.toNat := Nat.mod_eq_of_lt (by omega)
    rw [if_neg hc, if_pos h1, h2, len_small _ (by omega)]


/-! ## The serial handle when every write completes -/

theorem sysWrite_ok (s : Serial) (buf : List Nat) (n : Nat) (h : s.allOk) :
    (sysWrite s buf n).2 = (n : Int) ∧ (sysWrite s buf n).1.out = s.out ++ buf.take n
      ∧ (sysWrite s buf n).1.allOk := by
  unfold sysWrite
  rcases hs : s.script with _ | ⟨r, rest⟩
  · simp [Serial.allOk]
  · have hr : r = none := h r (by simp [hs])
    subst hr
    refine ⟨rfl, rfl, ?_⟩
    intro x hx
    exact h x (by simp [hs, hx])

theorem write_parts_ok (s : Serial) (pfx : List Nat) (pfx_length : Nat) (input : List Nat)
    (count : Int) (sfx : List Nat) (hok : s.allOk) (hc : 0 ≤ count) :
    (write_parts s pfx pfx_length input count sfx).2 = count
    ∧ (write_parts s pfx pfx_length input count sfx).1.out
        = s.out ++ (pfx.take pfx_length ++ input.take count.toNat ++ sfx.take 2)
    ∧ (write_parts s pfx pfx_length input count sfx).1.allOk := by
  obtain ⟨e1, o1, k1⟩ := sysWrite_ok s pfx pfx_length hok
  unfold write_parts
  by_cases hpos : count > 0
  · obtain ⟨e2, o2, k2⟩ := sysWrite_ok _ input count.toNat k1
    obtain ⟨e3, o3, k3⟩ := sysWrite_ok _ sfx 2 k2
    simp only [if_pos hpos, e1, e2, e3, Int.toNat_of_nonneg hc]
    simp only [ne_eq, not_true_eq_false, and_false, if_false, Nat.cast_ofNat]
    refine ⟨trivial, ?_, k3⟩
    rw [o3, o2, o1]
    simp
  · have hz : count = 0 := by omega
    subst hz
    obtain ⟨e3, o3, k3⟩ := sysWrite_ok _ sfx 2 k1
    have h0 : ¬ ((0 : Int) > 0) := by decide
    simp only [if_neg h0, e1, e3]
    simp only [ne_eq, not_true_eq_false, gt_iff_lt, lt_self_iff_false, false_and, if_false,
      Nat.cast_ofNat]
    refine ⟨trivial, ?_, k3⟩
    rw [o3, o1]
    simp

/-! ## The encoders -/

theorem write_frame_copy_parts (make_fcs : List Nat → Nat) (mfs : Int) (s : Serial)
    (channel : Int) (input : List Nat) (count : Int) (type : Nat) (arg : Int) :
    write_frame_copy make_fcs mfs s channel input count type arg
      = write_parts s
          [F_FLAG, ((if arg = 0 then EA else EA ||| CR) ||| ((63 &&& u8 channel) <<< 2)) % 256,
            type % 256,
            if min mfs count > 127 then ((127 &&& bits (min mfs count)) <<< 1) % 256
              else (1 ||| (bits (min mfs count) <<< 1)) % 256,
            if min mfs count > 127 then ((32640 &&& bits (min mfs count)) >>> 7) % 256 else 0]
          (if min mfs count > 127 then 5 else 4) input (min mfs count)
          [make_fcs
            (((if arg = 0 then EA else EA ||| CR) ||| ((63 &&& u8 channel) <<< 2)) % 256
              :: type % 256
              :: (if min mfs count > 127 then
                    [((127 &&& bits (min mfs count)) <<< 1) % 256,
                      ((32640 &&& bits (min mfs count)) >>> 7) % 256]
                  else [(1 ||| (bits (min mfs count) <<< 1)) % 256])) % 256, F_FLAG] := by
  unfold write_frame_copy write_parts
  by_cases h : min mfs count > 127
  · simp only [if_pos h]; rfl
  · simp only [if_neg h]; rfl

/-- With a non-zero `arg` the two encoders are the same function. -/
theorem write_frame_copy_eq_write_frame (make_fcs : List Nat → Nat) (mfs : Int) (s : Serial)
    (channel : Int) (input : List Nat) (count : Int) (type : Nat) (arg : Int) (h : arg ≠ 0) :
    write_frame_copy make_fcs mfs s channel input count type arg
      = write_frame make_fcs mfs s channel input count type := by
  unfold write_frame_copy write_frame
  simp only [if_neg h]

/-- When every write completes, `write_frame_copy` appends the byte sequence
of the specification for the first `min(max_frame_size, count)` bytes of the
input, and returns that number. -/
theorem write_frame_copy_ok (make_fcs : List Nat → Nat) (mfs : Int) (s : Serial)
    (channel : Int) (input : List Nat) (count : Int) (type : Nat) (arg : Int)
    (hok : s.allOk) (hm : 0 ≤ mfs) (hc : 0 ≤ count) (ht : type < 256) :
    (write_frame_copy make_fcs mfs s channel input count type arg).2 = min mfs count
    ∧ (write_frame_copy make_fcs mfs s channel input count type arg).1.out
        = s.out ++ spec_bytes make_fcs channel type (min mfs count).toNat
            (input.take (min mfs count).toNat) (decide (arg ≠ 0))
    ∧ (write_frame_copy make_fcs mfs s channel input count type arg).1.allOk := by
  have hn : 0 ≤ min mfs count := le_min hm hc
  have haddr := addr_eq channel (decide (arg ≠ 0))
  have hlen := len_eq (min mfs count) hn
  have hif : (if decide (arg ≠ 0) = true then EA ||| CR else EA)
      = (if arg = 0 then EA else EA ||| CR) := by
    by_cases ha : arg = 0 <;> simp [ha]
  rw [hif] at haddr
  rw [write_frame_copy_parts, haddr, hlen, Nat.mod_eq_of_lt ht]
  generalize min mfs count = n at *
  obtain ⟨e, o, k⟩ := write_parts_ok s
    [F_FLAG, spec_addr channel (decide (arg ≠ 0)), type,
      if n > 127 then ((127 &&& bits n) <<< 1) % 256 else (1 ||| (bits n <<< 1)) % 256,
      if n > 127 then ((32640 &&& bits n) >>> 7) % 256 else 0]
    (if n > 127 then 5 else 4) input n
    [make_fcs (spec_addr channel (decide (arg ≠ 0)) :: type :: spec_len n.toNat) % 256, F_FLAG]
    hok hn
  refine ⟨e, ?_, k⟩
  unfold spec_bytes
  rw [o, ← hlen]
  by_cases h : n > 127
  · simp only [if_pos h]; rfl
  · simp only [if_neg h]; rfl

/-- The same for `write_frame`, whose C/R bit is always set. -/
theorem write_frame_ok (make_fcs : List Nat → Nat) (mfs : Int) (s : Serial)
    (channel : Int) (input : List Nat) (count : Int) (type : Nat)
    (hok : s.allOk) (hm : 0 ≤ mfs) (hc : 0 ≤ count) (ht : type < 256) :
    (write_frame make_fcs mfs s channel input count type).2 = min mfs count
    ∧ (write_frame make_fcs mfs s channel input count type).1.out
        = s.out ++ spec_bytes make_fcs channel type (min mfs count).toNat
            (input.take (min mfs count).toNat) true
    ∧ (write_frame make_fcs mfs s channel input count type).1.allOk := by
  have h := write_frame_copy_ok make_fcs mfs s channel input count type 1 hok hm hc ht
  rw [write_frame_copy_eq_write_frame _ _ _ _ _ _ _ 1 (by decide)] at h
  simpa using h

/-- C1.  Frame encoder equals the reference layout: for every channel, control
octet `type`, input buffer and `count >= 0`, with `max_frame_size >= 0` and
all serial writes succeeding, `write_frame` appends to the serial handle
exactly `0x7E, addr, type, LEN, input[0..n), make_fcs(addr, type, LEN), 0x7E`
with `n = min(max_frame_size, count)` and the C/R bit set, and returns `n`;
`write_frame_copy` appends the same sequence with the C/R bit set iff
`arg != 0`, and for `arg != 0` it is equal to `write_frame`. -/
theorem write_frame_reference_layout (make_fcs : List Nat → Nat) (max_frame_size : Int)
    (s : Serial) (channel : Int) (input : List Nat) (count : Int) (type : Nat) (arg : Int)
    (hok : s.allOk) (hm : 0 ≤ max_frame_size) (hc : 0 ≤ count) (ht : type < 256) :
    ((write_frame make_fcs max_frame_size s channel input count type).1.out
        = s.out ++ spec_bytes make_fcs channel type (min max_frame_size count).toNat
            (input.take (min max_frame_size count).toNat) true
      ∧ (write_frame make_fcs max_frame_size s channel input count type).2
        = min max_frame_size count)
    ∧ ((write_frame_copy make_fcs max_frame_size s channel input count type arg).1.out
        = s.out ++ spec_bytes make_fcs channel type (min max_frame_size count).toNat
            (input.take (min max_frame_size count).toNat) (decide (arg ≠ 0))
      ∧ (write_frame_copy make_fcs max_frame_size s channel input count type arg).2
        = min max_frame_size count)
    ∧ (arg ≠ 0 → write_frame_copy make_fcs max_frame_size s channel input count type arg
        = write_frame make_fcs max_frame_size s channel input count type) := by
  obtain ⟨r1, o1, _⟩ := write_frame_ok make_fcs max_frame_size s channel input count type
    hok hm hc ht
  obtain ⟨r2, o2, _⟩ := write_frame_copy_ok make_fcs max_frame_size s channel input count type
    arg hok hm hc ht
  exact ⟨⟨o1, r1⟩, ⟨o2, r2⟩,
    write_frame_copy_eq_write_frame make_fcs max_frame_size s channel input count type arg⟩

/-- Scenario S1: channel 1, payload `41 54 0D`, type `0xEF` gives
`7E 07 EF 07 41 54 0D <fcs> 7E` and returns 3. -/
theorem write_frame_reference_layout_witness :
    (write_frame make_fcs_0710 31 ⟨[], []⟩ 1 [0x41, 0x54, 0x0D] 3 0xEF).1.out
        = [0x7E, 0x07, 0xEF, 0x07, 0x41, 0x54, 0x0D, make_fcs_0710 [0x07, 0xEF, 0x07], 0x7E]
      ∧ (write_frame make_fcs_0710 31 ⟨[], []⟩ 1 [0x41, 0x54, 0x0D] 3 0xEF).2 = 3 := by
  have h := (write_frame_reference_layout make_fcs_0710 31 ⟨[], []⟩ 1 [0x41, 0x54, 0x0D] 3 0xEF 1
    (by decide) (by decide) (by decide) (by decide)).1
  refine ⟨h.1.trans (by decide), h.2.trans (by decide)⟩

/-! ## The channel table -/

theorem set_opened_get_same (st : Mux) (a : Nat) (v : Int) (c : Channel_Status)
    (hc : st.cstatus[a]? = some c) :
    (set_opened st a v).cstatus[a]? = some { c with opened := v } := by
  simp [set_opened, hc]

theorem set_opened_get_other (st : Mux) (a b : Nat) (v : Int) (h : b ≠ a) :
    (set_opened st a v).cstatus[b]? = st.cstatus[b]? := by
  simp [set_opened, List.getElem?_modify_ne _ _ (Ne.symm h)]

theorem set_opened_restore (st : Mux) (a : Nat) (v : Int) (c : Channel_Status)
    (hc : st.cstatus[a]? = some c) :
    (set_opened (set_opened st a v) a c.opened).cstatus = st.cstatus := by
  simp only [set_opened]
  apply List.ext_getElem?
  intro i
  by_cases h : i = a
  · subst h
    simp [hc]
  · simp [List.getElem?_modify_ne _ _ (Ne.symm h)]

theorem set_opened_twice (st : Mux) (a : Nat) (v w : Int) :
    (set_opened (set_opened st a v) a w).cstatus = (set_opened st a w).cstatus := by
  simp only [set_opened, List.modify_modify_eq]
  rfl

theorem spec_bytes_take (make_fcs : List Nat → Nat) (channel : Int) (type : Nat) (n : Nat)
    (l : List Nat) (cr : Bool) (h : n ≤ l.length) :
    spec_bytes make_fcs channel type n (l.take n) cr
      = spec_frame make_fcs channel type (l.take n) cr := by
  unfold spec_frame
  rw [List.length_take, Nat.min_eq_left h]

theorem version_test_take (n : Nat) (h : n ≤ 18) :
    version_test.take n = version_blob.take n := by
  interval_cases n <;> rfl

/-- A zero-length frame sent by the link engine, when every write completes
and the frame size is not negative. -/
theorem send_empty_frame_out (make_fcs : List Nat → Nat) (st : Mux) (channel : Int)
    (type : Nat) (ht : type < 256) (hok : st.serial.allOk) (hm : 0 ≤ st.max_frame_size) :
    (write_frame make_fcs st.max_frame_size st.serial channel [] 0 type).1.out
      = st.serial.out ++ spec_frame make_fcs channel type [] true := by
  have h := (write_frame_ok make_fcs st.max_frame_size st.serial channel [] 0 type hok hm
    (le_refl 0) ht).2.1
  simpa [spec_frame, hm] using h

/-! ## The link engine, one control octet at a time -/

theorem handle_frame_SABM (make_fcs : List Nat → Nat) (st : Mux) (frame : GSM0710_Frame)
    (hctl : strip_PF frame.control = SABM) (ha : frame.channel < st.cstatus.length) :
    handle_frame make_fcs st frame
      = some (send_frame make_fcs (set_opened st frame.channel 1) frame.channel [] 0
          (UA ||| PF)) := by
  have hinfo : (FRAME_IS UI frame || FRAME_IS UIH frame) = false := by
    simp [FRAME_IS, hctl, SABM, UI, UIH]
  unfold handle_frame
  simp [hinfo, hctl, SABM, UA, DM, DISC, List.getElem?_eq_getElem ha]

theorem handle_frame_UA (make_fcs : List Nat → Nat) (st : Mux) (frame : GSM0710_Frame)
    (c : Channel_Status)
    (hctl : strip_PF frame.control = UA) (hc : st.cstatus[frame.channel]? = some c) :
    handle_frame make_fcs st frame
      = some (if c.opened = 1 then set_opened st frame.channel 0
          else if frame.channel = 0 then
            send_frame make_fcs (set_opened st frame.channel 1) 0 version_test 18 UIH
          else set_opened st frame.channel 1) := by
  have hinfo : (FRAME_IS UI frame || FRAME_IS UIH frame) = false := by
    simp [FRAME_IS, hctl, UA, UI, UIH]
  unfold handle_frame
  simp only [hinfo, hctl, hc, if_true, Bool.false_eq_true, if_false]
  split_ifs <;> rfl

theorem handle_frame_DM (make_fcs : List Nat → Nat) (st : Mux) (frame : GSM0710_Frame)
    (c : Channel_Status)
    (hctl : strip_PF frame.control = DM) (hc : st.cstatus[frame.channel]? = some c) :
    handle_frame make_fcs st frame
      = some (if c.opened ≠ 0 then set_opened st frame.channel 0
          else if frame.channel = 0 then { st with terminate := 1, terminateCount := -1 }
          else st) := by
  have hinfo : (FRAME_IS UI frame || FRAME_IS UIH frame) = false := by
    simp [FRAME_IS, hctl, DM, UI, UIH]
  have h1 : ¬ DM = UA := by decide
  unfold handle_frame
  simp only [hinfo, hctl, hc, h1, if_true, Bool.false_eq_true, if_false]
  split_ifs <;> rfl

theorem handle_frame_DISC (make_fcs : List Nat → Nat) (st : Mux) (frame : GSM0710_Frame)
    (c : Channel_Status)
    (hctl : strip_PF frame.control = DISC) (hc : st.cstatus[frame.channel]? = some c) :
    handle_frame make_fcs st frame
      = some (if c.opened ≠ 0 then
            if frame.channel = 0 then
              if st.faultTolerant ≠ 0 then
                { send_frame make_fcs (set_opened st frame.channel 0) frame.channel [] 0
                    (UA ||| PF) with restart := 1 }
              else
                { send_frame make_fcs (set_opened st frame.channel 0) frame.channel [] 0
                    (UA ||| PF) with terminate := 1, terminateCount := -1 }
            else send_frame make_fcs (set_opened st frame.channel 0) frame.channel [] 0
              (UA ||| PF)
          else send_frame make_fcs st frame.channel [] 0 (DM ||| PF)) := by
  have hinfo : (FRAME_IS UI frame || FRAME_IS UIH frame) = false := by
    simp [FRAME_IS, hctl, DISC, UI, UIH]
  have h1 : ¬ DISC = UA := by decide
  have h2 : ¬ DISC = DM := by decide
  unfold handle_frame
  simp only [hinfo, hctl, hc, h1, h2, if_true, Bool.false_eq_true, if_false]
  split_ifs <;> first | rfl | (exfalso; simp_all [send_frame, set_opened])

/-- C4.  Received SABM handling: for a frame whose control octet without P/F
is SABM on an address `a` within the channel table, the engine returns a state
in which channel `a` is open whatever it was before and no other channel entry
differs, the serial handle is the one left by exactly one call
`write_frame(a, NULL, 0, UA|PF)` (on the wire, when writes complete: one
zero-length frame with control `0x73` on address `a`), and `terminate`,
`terminateCount`, `restart` are unchanged; handling the same SABM again leaves
the channel table as it is and replies with the same call once more. -/
theorem sabm_handling (make_fcs : List Nat → Nat) (st : Mux) (frame : GSM0710_Frame)
    (hctl : strip_PF frame.control = SABM) (ha : frame.channel < st.cstatus.length) :
    ∃ st' st'', handle_frame make_fcs st frame = some st'
      ∧ handle_frame make_fcs st' frame = some st''
      ∧ (st'.cstatus[frame.channel]?).map (·.opened) = some 1
      ∧ (∀ b, b ≠ frame.channel → st'.cstatus[b]? = st.cstatus[b]?)
      ∧ st'.serial
          = (write_frame make_fcs st.max_frame_size st.serial frame.channel [] 0 0x73).1
      ∧ (st.serial.allOk → 0 ≤ st.max_frame_size →
          st'.serial.out = st.serial.out ++ spec_frame make_fcs frame.channel 0x73 [] true)
      ∧ st'.terminate = st.terminate ∧ st'.terminateCount = st.terminateCount
      ∧ st'.restart = st.restart
      ∧ st''.cstatus = st'.cstatus
      ∧ st''.serial
          = (write_frame make_fcs st.max_frame_size st'.serial frame.channel [] 0 0x73).1 := by
  have hlen : frame.channel < (send_frame make_fcs (set_opened st frame.channel 1)
      frame.channel [] 0 (UA ||| PF)).cstatus.length := by
    simp [send_frame, set_opened, ha]
  refine ⟨_, _, handle_frame_SABM make_fcs st frame hctl ha,
    handle_frame_SABM make_fcs _ frame hctl hlen, ?_, ?_, rfl, ?_, rfl, rfl, rfl, ?_, rfl⟩
  · simp [send_frame, set_opened, List.getElem?_eq_getElem ha]
  · intro b hb
    exact set_opened_get_other st _ b 1 hb
  · intro hok hm
    exact send_empty_frame_out make_fcs st frame.channel 0x73 (by decide) hok hm
  · exact set_opened_twice st frame.channel 1 1

/-- Scenario S4: a SABM (with P/F) on channel 2 while it is closed opens
channel 2 and puts exactly one UA|PF frame for channel 2 on the wire. -/
theorem sabm_handling_witness :
    ∃ st', handle_frame make_fcs_0710 demo_state ⟨2, 0x3F, 0, []⟩ = some st'
      ∧ (st'.cstatus[2]?).map (·.opened) = some 1
      ∧ st'.serial.out = [0x7E, 0x0B, 0x73, 0x01, make_fcs_0710 [0x0B, 0x73, 0x01], 0x7E] := by
  obtain ⟨st', _, h1, _, h2, _, _, h3, _⟩ :=
    sabm_handling make_fcs_0710 demo_state ⟨2, 0x3F, 0, []⟩ (by decide) (by decide)
  exact ⟨st', h1, h2, (h3 (by decide) (by decide)).trans (by decide)⟩

/-- C5.  Received UA handling: for a frame whose control octet without P/F is
UA on an address `a` within the channel table (entry `c`), no other channel
entry and none of `terminate`, `terminateCount`, `restart` changes.  If the
channel was open (`opened == 1`, the test of the source) it becomes closed and
the serial handle is untouched.  Otherwise it becomes open, the serial handle
is untouched when `a != 0`, and when `a == 0` it is the one left by exactly one
call `write_frame(0, version_test, 18, UIH)`: on the wire, when writes complete,
one UIH frame on channel 0 carrying the first `min(max_frame_size, 18)` bytes
of `23 21 04 'TEMUXVERSION2' 00 00`.  A second UA on the same address restores
the channel table. -/
theorem ua_handling (make_fcs : List Nat → Nat) (st : Mux) (frame : GSM0710_Frame)
    (c : Channel_Status)
    (hctl : strip_PF frame.control = UA) (hc : st.cstatus[frame.channel]? = some c) :
    ∃ st', handle_frame make_fcs st frame = some st'
      ∧ (∀ b, b ≠ frame.channel → st'.cstatus[b]? = st.cstatus[b]?)
      ∧ st'.terminate = st.terminate ∧ st'.terminateCount = st.terminateCount
      ∧ st'.restart = st.restart
      ∧ (c.opened = 1 →
          st'.cstatus[frame.channel]? = some { c with opened := 0 } ∧ st'.serial = st.serial)
      ∧ (c.opened ≠ 1 →
          st'.cstatus[frame.channel]? = some { c with opened := 1 }
          ∧ (frame.channel ≠ 0 → st'.serial = st.serial)
          ∧ (frame.channel = 0 →
              st'.serial
                = (write_frame make_fcs st.max_frame_size st.serial 0 version_test 18 0xEF).1
              ∧ (st.serial.allOk → 0 ≤ st.max_frame_size →
                  st'.serial.out = st.serial.out ++ spec_frame make_fcs 0 0xEF
                    (version_blob.take (min st.max_frame_size 18).toNat) true)))
      ∧ ((c.opened = 0 ∨ c.opened = 1) →
          ∃ st'', handle_frame make_fcs st' frame = some st'' ∧ st''.cstatus = st.cstatus) := by
  refine ⟨_, handle_frame_UA make_fcs st frame c hctl hc, ?_, ?_, ?_, ?_, ?_, ?_, ?_⟩
  · intro b hb
    split_ifs <;> simp [send_frame, set_opened_get_other _ _ _ _ hb]
  · split_ifs <;> rfl
  · split_ifs <;> rfl
  · split_ifs <;> rfl
  · intro hop
    rw [if_pos hop]
    exact ⟨set_opened_get_same st _ 0 c hc, rfl⟩
  · intro hop
    rw [if_neg hop]
    refine ⟨?_, ?_, ?_⟩
    · split_ifs <;> simp [send_frame, set_opened_get_same st _ 1 c hc]
    · intro h0; rw [if_neg h0]; rfl
    · intro h0
      rw [if_pos h0]
      refine ⟨rfl, ?_⟩
      intro hok hm
      have hw := (write_frame_ok make_fcs st.max_frame_size st.serial 0 version_test 18 0xEF
        hok hm (by decide) (by decide)).2.1
      have hn : (min st.max_frame_size 18).toNat ≤ 18 := by omega
      rw [version_test_take _ hn, spec_bytes_take] at hw
      · exact hw
      · simp [version_blob]
  · intro hflag
    rcases hflag with h0 | h1
    · have hop : ¬ c.opened = 1 := by omega
      rw [if_neg hop]
      have hr := set_opened_restore st frame.channel 1 c hc
      rw [h0] at hr
      have hc' : ∀ s : Mux, s.cstatus = (set_opened st frame.channel 1).cstatus →
          s.cstatus[frame.channel]? = some { c with opened := 1 } := by
        intro s hs
        rw [hs]; exact set_opened_get_same st _ 1 c hc
      by_cases ha : frame.channel = 0
      · rw [if_pos ha]
        refine ⟨_, handle_frame_UA make_fcs _ frame _ hctl (hc' _ rfl), ?_⟩
        rw [if_pos rfl]
        exact hr
      · rw [if_neg ha]
        refine ⟨_, handle_frame_UA make_fcs _ frame _ hctl (hc' _ rfl), ?_⟩
        rw [if_pos rfl]
        exact hr
    · rw [if_pos h1]
      have hr := set_opened_restore st frame.channel 0 c hc
      rw [h1] at hr
      refine ⟨_, handle_frame_UA make_fcs _ frame _ hctl
        (set_opened_get_same st _ 0 c hc), ?_⟩
      have hne : ¬ ((0 : Int) = 1) := by decide
      simp only [hne, if_false]
      split_ifs
      · exact hr
      · exact hr

/-- A UA (with P/F) on the control channel while it is closed opens it and
puts the 18-byte version test on the wire in one UIH frame on channel 0. -/
theorem ua_handling_witness :
    ∃ st', handle_frame make_fcs_0710 { demo_state with cstatus := [⟨0, 0x8D⟩, ⟨0, 0x8D⟩, ⟨0, 0x8D⟩] }
        ⟨0, 0x73, 0, []⟩ = some st'
      ∧ st'.cstatus[0]? = some ⟨1, 0x8D⟩
      ∧ st'.serial.out = [0x7E, 0x03, 0xEF, 0x25] ++ version_blob
          ++ [make_fcs_0710 [0x03, 0xEF, 0x25], 0x7E] := by
  obtain ⟨st', h1, _, _, _, _, _, h2, _⟩ :=
    ua_handling make_fcs_0710 { demo_state with cstatus := [⟨0, 0x8D⟩, ⟨0, 0x8D⟩, ⟨0, 0x8D⟩] }
      ⟨0, 0x73, 0, []⟩ ⟨0, 0x8D⟩ (by decide) (by decide)
  obtain ⟨h3, _, h4⟩ := h2 (by decide)
  exact ⟨st', h1, h3, ((h4 rfl).2 (by decide) (by decide)).trans (by decide)⟩

/-- C6.  Received DISC handling: for a frame whose control octet without P/F
is DISC on an address `a` within the channel table (entry `c`).  If the
channel was open (`opened` non-zero, the test of the source) it becomes closed,
no other entry changes, and the serial handle is the one left by exactly one
call `write_frame(a, NULL, 0, UA|PF)` (on the wire, when writes complete: one
zero-length frame with control `0x73` on `a`); when `a == 0`, `restart` is set
and `terminate`, `terminateCount` are unchanged in fault-tolerant mode, and
otherwise `terminate` is set, `terminateCount` becomes -1 and `restart` is
unchanged; when `a != 0` none of the three changes.  If the channel was closed,
the serial handle is the one left by exactly one call
`write_frame(a, NULL, 0, DM|PF)` (control `0x1F`), the channel table is
unchanged and none of the three changes. -/
theorem disc_handling (make_fcs : List Nat → Nat) (st : Mux) (frame : GSM0710_Frame)
    (c : Channel_Status)
    (hctl : strip_PF frame.control = DISC) (hc : st.cstatus[frame.channel]? = some c) :
    ∃ st', handle_frame make_fcs st frame = some st'
      ∧ (c.opened ≠ 0 →
          st'.cstatus[frame.channel]? = some { c with opened := 0 }
          ∧ (∀ b, b ≠ frame.channel → st'.cstatus[b]? = st.cstatus[b]?)
          ∧ st'.serial
              = (write_frame make_fcs st.max_frame_size st.serial frame.channel [] 0 0x73).1
          ∧ (st.serial.allOk → 0 ≤ st.max_frame_size →
              st'.serial.out
                = st.serial.out ++ spec_frame make_fcs frame.channel 0x73 [] true)
          ∧ (frame.channel = 0 → st.faultTolerant ≠ 0 →
              st'.restart = 1 ∧ st'.terminate = st.terminate
              ∧ st'.terminateCount = st.terminateCount)
          ∧ (frame.channel = 0 → st.faultTolerant = 0 →
              st'.terminate = 1 ∧ st'.terminateCount = -1 ∧ st'.restart = st.restart)
          ∧ (frame.channel ≠ 0 →
              st'.terminate = st.terminate ∧ st'.terminateCount = st.terminateCount
              ∧ st'.restart = st.restart))
      ∧ (c.opened = 0 →
          st'.cstatus = st.cstatus
          ∧ st'.serial
              = (write_frame make_fcs st.max_frame_size st.serial frame.channel [] 0 0x1F).1
          ∧ (st.serial.allOk → 0 ≤ st.max_frame_size →
              st'.serial.out
                = st.serial.out ++ spec_frame make_fcs frame.channel 0x1F [] true)
          ∧ st'.terminate = st.terminate ∧ st'.terminateCount = st.terminateCount
          ∧ st'.restart = st.restart) := by
  refine ⟨_, handle_frame_DISC make_fcs st frame c hctl hc, ?_, ?_⟩
  · intro hop
    rw [if_pos hop]
    refine ⟨?_, ?_, ?_, ?_, ?_, ?_, ?_⟩
    · split_ifs <;> exact set_opened_get_same st _ 0 c hc
    · intro b hb
      split_ifs <;> exact set_opened_get_other st _ b 0 hb
    · split_ifs <;> rfl
    · intro hok hm
      have h := send_empty_frame_out make_fcs st frame.channel 0x73 (by decide) hok hm
      split_ifs <;> exact h
    · intro h0 hft
      rw [if_pos h0, if_pos hft]
      exact ⟨rfl, rfl, rfl⟩
    · intro h0 hft
      have hft' : ¬ st.faultTolerant ≠ 0 := by simp [hft]
      rw [if_pos h0, if_neg hft']
      exact ⟨rfl, rfl, rfl⟩
    · intro h0
      rw [if_neg h0]
      exact ⟨rfl, rfl, rfl⟩
  · intro hcl
    have hcl' : ¬ c.opened ≠ 0 := by simp [hcl]
    rw [if_neg hcl']
    refine ⟨rfl, rfl, ?_, rfl, rfl, rfl⟩
    intro hok hm
    exact send_empty_frame_out make_fcs st frame.channel 0x1F (by decide) hok hm

/-- A DISC (with P/F) on the open control channel, fault-tolerant mode off:
the channel is closed, UA|PF goes out on channel 0, `terminate` is set and
`terminateCount` is -1. -/
theorem disc_handling_witness :
    ∃ st', handle_frame make_fcs_0710 demo_state ⟨0, 0x53, 0, []⟩ = some st'
      ∧ st'.cstatus[0]? = some ⟨0, 0x8D⟩
      ∧ st'.serial.out = [0x7E, 0x03, 0x73, 0x01, make_fcs_0710 [0x03, 0x73, 0x01], 0x7E]
      ∧ st'.terminate = 1 ∧ st'.terminateCount = -1 := by
  obtain ⟨st', h1, h2, _⟩ :=
    disc_handling make_fcs_0710 demo_state ⟨0, 0x53, 0, []⟩ ⟨1, 0x8D⟩ (by decide) (by decide)
  obtain ⟨h3, _, _, h4, _, h5, _⟩ := h2 (by decide)
  exact ⟨st', h1, h3, (h4 (by decide) (by decide)).trans (by decide), (h5 rfl rfl).1,
    (h5 rfl rfl).2.1⟩

/-- C7.  Received DM handling: for a frame whose control octet without P/F is
DM on an address `a` within the channel table (entry `c`), the serial handle is
untouched (no frame is transmitted) and: if the channel was open (`opened`
non-zero) it becomes closed, no other entry changes and `terminate`,
`terminateCount`, `restart` are unchanged; if it was closed and `a == 0`,
`terminate` is set and `terminateCount` becomes -1 (channel table and
`restart` unchanged); if it was closed and `a != 0`, the state is unchanged. -/
theorem dm_handling (make_fcs : List Nat → Nat) (st : Mux) (frame : GSM0710_Frame)
    (c : Channel_Status)
    (hctl : strip_PF frame.control = DM) (hc : st.cstatus[frame.channel]? = some c) :
    ∃ st', handle_frame make_fcs st frame = some st'
      ∧ st'.serial = st.serial
      ∧ (c.opened ≠ 0 →
          st'.cstatus[frame.channel]? = some { c with opened := 0 }
          ∧ (∀ b, b ≠ frame.channel → st'.cstatus[b]? = st.cstatus[b]?)
          ∧ st'.terminate = st.terminate ∧ st'.terminateCount = st.terminateCount
          ∧ st'.restart = st.restart)
      ∧ (c.opened = 0 → frame.channel = 0 →
          st'.terminate = 1 ∧ st'.terminateCount = -1 ∧ st'.cstatus = st.cstatus
          ∧ st'.restart = st.restart)
      ∧ (c.opened = 0 → frame.channel ≠ 0 → st' = st) := by
  refine ⟨_, handle_frame_DM make_fcs st frame c hctl hc, ?_, ?_, ?_, ?_⟩
  · split_ifs <;> rfl
  · intro hop
    rw [if_pos hop]
    exact ⟨set_opened_get_same st _ 0 c hc, fun b hb => set_opened_get_other st _ b 0 hb,
      rfl, rfl, rfl⟩
  · intro hcl h0
    have hcl' : ¬ c.opened ≠ 0 := by simp [hcl]
    rw [if_neg hcl', if_pos h0]
    exact ⟨rfl, rfl, rfl, rfl⟩
  · intro hcl h0
    have hcl' : ¬ c.opened ≠ 0 := by simp [hcl]
    rw [if_neg hcl', if_neg h0]

/-- A DM on the control channel while it is closed: nothing is transmitted,
`terminate` is set and `terminateCount` is -1. -/
theorem dm_handling_witness :
    ∃ st', handle_frame make_fcs_0710
        { demo_state with cstatus := [⟨0, 0x8D⟩, ⟨0, 0x8D⟩, ⟨0, 0x8D⟩] } ⟨0, 0x0F, 0, []⟩
          = some st'
      ∧ st'.serial.out = [] ∧ st'.terminate = 1 ∧ st'.terminateCount = -1 := by
  obtain ⟨st', h1, h2, _, h3, _⟩ :=
    dm_handling make_fcs_0710 { demo_state with cstatus := [⟨0, 0x8D⟩, ⟨0, 0x8D⟩, ⟨0, 0x8D⟩] }
      ⟨0, 0x0F, 0, []⟩ ⟨0, 0x8D⟩ (by decide) (by decide)
  exact ⟨st', h1, by rw [h2]; rfl, (h3 rfl rfl).1, (h3 rfl rfl).2.1⟩

/-! ## Information frames and unknown control octets -/

theorem handle_frame_info (make_fcs : List Nat → Nat) (st : Mux) (frame : GSM0710_Frame)
    (hctl : strip_PF frame.control = UI ∨ strip_PF frame.control = UIH) :
    handle_frame make_fcs st frame
      = if frame.channel > 0 then
          (ussp_send_data st frame.data frame.data_length ((frame.channel : Int) - 1)).map (·.1)
        else some st := by
  have hinfo : (FRAME_IS UI frame || FRAME_IS UIH frame) = true := by
    rcases hctl with h | h <;> simp [FRAME_IS, h]
  unfold handle_frame
  rw [if_pos hinfo]

theorem handle_frame_other (make_fcs : List Nat → Nat) (st : Mux) (frame : GSM0710_Frame)
    (h1 : strip_PF frame.control ≠ SABM) (h2 : strip_PF frame.control ≠ UA)
    (h3 : strip_PF frame.control ≠ DM) (h4 : strip_PF frame.control ≠ DISC)
    (h5 : strip_PF frame.control ≠ UI) (h6 : strip_PF frame.control ≠ UIH) :
    handle_frame make_fcs st frame = some st := by
  have hinfo : (FRAME_IS UI frame || FRAME_IS UIH frame) = false := by
    simp [FRAME_IS, h5, h6]
  unfold handle_frame
  simp only [hinfo, h1, h2, h3, h4, if_false, Bool.false_eq_true]

/-- C8.  UI/UIH routing leaves link state untouched: for a frame whose control
octet without P/F is UI or UIH, if its address `c` satisfies `1 <= c <= N`
(`N` the number of endpoint handles) the new state differs from the old one
only by one more recorded `write`, to endpoint `c-1`, of the first
`data_length` bytes of the payload; if its address is 0 the state is
unchanged.  A frame whose control octet without P/F is none of SABM, UA, DM,
DISC, UI, UIH leaves the state unchanged.  In all three cases the serial
handle, the channel table, `terminate`, `terminateCount` and `restart` are
therefore the old ones. -/
theorem info_frame_routing (make_fcs : List Nat → Nat) (st : Mux) (frame : GSM0710_Frame) :
    ((strip_PF frame.control = UI ∨ strip_PF frame.control = UIH) →
        (1 ≤ frame.channel → frame.channel ≤ st.ussp_fd.length →
          handle_frame make_fcs st frame
            = some { st with ussp_writes := st.ussp_writes
                ++ [(frame.channel - 1, frame.data.take frame.data_length.toNat)] })
        ∧ (frame.channel = 0 → handle_frame make_fcs st frame = some st))
    ∧ (strip_PF frame.control ≠ SABM → strip_PF frame.control ≠ UA →
        strip_PF frame.control ≠ DM → strip_PF frame.control ≠ DISC →
        strip_PF frame.control ≠ UI → strip_PF frame.control ≠ UIH →
        handle_frame make_fcs st frame = some st) := by
  refine ⟨fun hctl => ⟨?_, ?_⟩, handle_frame_other make_fcs st frame⟩
  · intro h1 hN
    have hpos : frame.channel > 0 := h1
    have hport : 0 ≤ (frame.channel : Int) - 1 ∧ (frame.channel : Int) - 1 < st.ussp_fd.length := by
      omega
    have hnat : ((frame.channel : Int) - 1).toNat = frame.channel - 1 := by omega
    rw [handle_frame_info make_fcs st frame hctl, if_pos hpos]
    unfold ussp_send_data
    rw [if_pos hport, hnat]
    rfl
  · intro h0
    have hpos : ¬ frame.channel > 0 := by omega
    rw [handle_frame_info make_fcs st frame hctl, if_neg hpos]

/-- A UIH frame on channel 2 carrying `4F 4B`: the two bytes are handed to
endpoint 1 in one write, and nothing else changes. -/
theorem info_frame_routing_witness :
    handle_frame make_fcs_0710 demo_state ⟨2, 0xEF, 2, [0x4F, 0x4B]⟩
      = some { demo_state with ussp_writes := [(1, [0x4F, 0x4B])] } :=
  ((info_frame_routing make_fcs_0710 demo_state ⟨2, 0xEF, 2, [0x4F, 0x4B]⟩).1
    (Or.inr (by decide))).1 (by decide) (by decide)

/-! ## The endpoint fragmenter -/

theorem ceil_step_full (r m : Nat) (hm : 1 ≤ m) (hr : m ≤ r) :
    (r - m + m - 1) / m + 1 = (r + m - 1) / m := by
  have h1 : r - m + m - 1 = r - 1 := by omega
  have h2 : r + m - 1 = (r - 1) + m := by omega
  rw [h1, h2, Nat.add_div_right _ (by omega : 0 < m)]

theorem ceil_last (r m : Nat) (hr : 1 ≤ r) (hrm : r ≤ m) : (r + m - 1) / m = 1 := by
  have h2 : r + m - 1 = (r - 1) + m := by omega
  rw [h2, Nat.add_div_right _ (by omega : 0 < m), Nat.div_eq_of_lt (by omega)]

theorem ceil_zero (m : Nat) (hm : 1 ≤ m) : (0 + m - 1) / m = 0 := by
  rw [Nat.zero_add]; exact Nat.div_eq_of_lt (by omega)

theorem ussp_recv_loop_ok (make_fcs : List Nat → Nat) (mfs : Int) (buf : List Nat)
    (len port : Int) (hm : 1 ≤ mfs) (hbuf : len ≤ buf.length) :
    ∀ (fuel : Nat) (s : Serial) (written i : Int), s.allOk → 0 ≤ written → written ≤ len →
      (len - written).toNat + 1 ≤ fuel → i < WRITE_RETRIES →
      ∃ (s' : Serial) (frags : List (List Nat)), ussp_recv_loop make_fcs mfs buf len port fuel s written i = some s'
        ∧ s'.allOk
        ∧ s'.out = s.out
            ++ (frags.map (fun p => spec_frame make_fcs (port + 1) UIH p false)).flatten
        ∧ frags.flatten = (buf.take len.toNat).drop written.toNat
        ∧ frags.length = ((len - written).toNat + mfs.toNat - 1) / mfs.toNat
        ∧ (∀ p ∈ frags, p.length ≤ mfs.toNat)
        ∧ (∀ p ∈ frags.dropLast, p.length = mfs.toNat) := by
  intro fuel
  induction fuel with
  | zero => intro s written i _ _ _ hf _; omega
  | succ fuel ih =>
    intro s written i hok hw0 hwl hf hi
    unfold ussp_recv_loop
    by_cases hdone : written = len
    · subst hdone
      have hcond : ¬ (written ≠ written ∧ i < WRITE_RETRIES) := by simp
      rw [if_neg hcond]
      refine ⟨s, [], rfl, hok, by simp, ?_, ?_, by simp, by simp⟩
      · have : (List.take written.toNat buf).length ≤ written.toNat := List.length_take_le _ _
        simp [List.drop_eq_nil_of_le this]
      · simp only [sub_self, Int.toNat_zero, List.length_nil]
        exact (ceil_zero mfs.toNat (by omega)).symm
    · have hcond : written ≠ len ∧ i < WRITE_RETRIES := ⟨hdone, hi⟩
      rw [if_pos hcond]
      have hcnt : 0 ≤ len - written := by omega
      obtain ⟨e, o, k⟩ := write_frame_copy_ok make_fcs mfs s (port + 1)
        (buf.drop written.toNat) (len - written) UIH 0 hok (by omega) hcnt (by decide)
      have hnpos : 1 ≤ min mfs (len - written) := le_min hm (by omega)
      have hne : ¬ (write_frame_copy make_fcs mfs s (port + 1) (buf.drop written.toNat)
          (len - written) UIH 0).2 = 0 := by rw [e]; omega
      simp only [hne, if_false]
      rw [e]
      have hnle : min mfs (len - written) ≤ len - written := min_le_right _ _
      have hnm : min mfs (len - written) ≤ mfs := min_le_left _ _
      obtain ⟨s', frags, hrun, hok', hout, hjoin, hcount, hsz, hfull⟩ :=
        ih _ (written + min mfs (len - written)) i k (by omega) (by omega) (by omega) hi
      -- the fragment sent in this iteration
      have hplen : (min mfs (len - written)).toNat ≤ (buf.drop written.toNat).length := by
        rw [List.length_drop]; omega
      have hp : ((buf.drop written.toNat).take (min mfs (len - written)).toNat).length
          = (min mfs (len - written)).toNat := by
        rw [List.length_take]; omega
      have hsplit : (buf.take len.toNat).drop written.toNat
          = (buf.drop written.toNat).take (min mfs (len - written)).toNat
            ++ (buf.take len.toNat).drop (written + min mfs (len - written)).toNat := by
        have e1 : (written + min mfs (len - written)).toNat
            = written.toNat + (min mfs (len - written)).toNat := by omega
        rw [e1, ← List.drop_drop, List.drop_take]
        have e2 : (buf.drop written.toNat).take (min mfs (len - written)).toNat
            = ((buf.drop written.toNat).take (len.toNat - written.toNat)).take
                (min mfs (len - written)).toNat := by
          rw [List.take_take, Nat.min_eq_left (by omega)]
        rw [e2, List.take_append_drop]
      refine ⟨s', ((buf.drop written.toNat).take (min mfs (len - written)).toNat) :: frags,
        hrun, hok', ?_, ?_, ?_, ?_, ?_⟩
      · rw [hout, o, spec_bytes_take _ _ _ _ _ _ hplen]
        simp
      · rw [List.flatten_cons, hjoin, ← hsplit]
      · rw [List.length_cons, hcount]
        by_cases hfullfrag : mfs ≤ len - written
        · have e1 : (len - (written + min mfs (len - written))).toNat
              = (len - written).toNat - mfs.toNat := by
            rw [min_eq_left hfullfrag]; omega
          rw [e1]
          exact ceil_step_full _ _ (by omega) (by omega)
        · have e1 : (len - (written + min mfs (len - written))).toNat = 0 := by
            rw [min_eq_right (by omega)]; omega
          rw [e1, ceil_zero _ (by omega), ceil_last _ _ (by omega) (by omega)]
      · intro p hpmem
        rcases List.mem_cons.mp hpmem with h | h
        · rw [h, hp]; omega
        · exact hsz p h
      · intro p hpmem
        cases frags with
        | nil => simp at hpmem
        | cons q qs =>
          rw [List.dropLast_cons₂] at hpmem
          rcases List.mem_cons.mp hpmem with h | h
          · rw [h, hp]
            by_cases hfullfrag : mfs ≤ len - written
            · rw [min_eq_left hfullfrag]
            · exfalso
              have e1 : (len - (written + min mfs (len - written))).toNat = 0 := by
                rw [min_eq_right (by omega)]; omega
              rw [e1, ceil_zero _ (by omega)] at hcount
              simp at hcount
          · exact hfull p h

theorem addr_channel_field : ∀ x < 64, (1 ||| 0 ||| ((x &&& 63) <<< 2)) >>> 2 = x := by decide

/-- C2.  Fragmentation preserves content and order: for a buffer holding at
least `len >= 0` bytes, any `port` and `max_frame_size >= 1`, if every serial
write completes then `ussp_recv_data(buf, len, port)` terminates (any fuel
above `len` suffices) and has appended to the serial handle a sequence of UIH
frames for channel `port + 1`, whose payloads `frags` number
`ceil(len / max_frame_size)`, are each at most `max_frame_size` long, all but
the last exactly `max_frame_size` long, and concatenate to `buf[0..len)`.  For
an endpoint index `0 <= port < 63` the channel field of the address octet is
`port + 1`. -/
theorem ussp_recv_data_fragments (make_fcs : List Nat → Nat) (max_frame_size : Int)
    (s : Serial) (buf : List Nat) (len port : Int) (fuel : Nat)
    (hok : s.allOk) (hm : 1 ≤ max_frame_size) (hlen : 0 ≤ len) (hbuf : len ≤ buf.length)
    (hfuel : len.toNat + 1 ≤ fuel) :
    ∃ (s' : Serial) (frags : List (List Nat)),
      ussp_recv_data make_fcs max_frame_size fuel s buf len port = some s'
      ∧ s'.out = s.out
          ++ (frags.map (fun p => spec_frame make_fcs (port + 1) UIH p false)).flatten
      ∧ frags.flatten = buf.take len.toNat
      ∧ frags.length = (len.toNat + max_frame_size.toNat - 1) / max_frame_size.toNat
      ∧ (∀ p ∈ frags, p.length ≤ max_frame_size.toNat)
      ∧ (∀ p ∈ frags.dropLast, p.length = max_frame_size.toNat)
      ∧ (0 ≤ port → port < 63 → spec_addr (port + 1) false >>> 2 = (port + 1).toNat) := by
  obtain ⟨s', frags, h1, _, h2, h3, h4, h5, h6⟩ :=
    ussp_recv_loop_ok make_fcs max_frame_size buf len port hm hbuf fuel s 0 0 hok (le_refl 0)
      hlen (by simpa using hfuel) (by decide)
  refine ⟨s', frags, h1, h2, by simpa using h3, by simpa using h4, h5, h6, ?_⟩
  intro hp0 hp63
  have hb : bits (port + 1) = (port + 1).toNat := by
    rw [bits_of_nonneg _ (by omega)]
    exact Nat.mod_eq_of_lt (by omega)
  unfold spec_addr
  rw [hb]
  exact addr_channel_field _ (by omega)

/-- Five bytes from endpoint 0 with `max_frame_size = 2`: three frames, whose
payloads concatenate to the five bytes. -/
theorem ussp_recv_data_fragments_witness :
    ∃ (s' : Serial) (frags : List (List Nat)),
      ussp_recv_data make_fcs_0710 2 6 ⟨[], []⟩ [1, 2, 3, 4, 5] 5 0 = some s'
      ∧ s'.out = (frags.map (fun p => spec_frame make_fcs_0710 1 UIH p false)).flatten
      ∧ frags.flatten = [1, 2, 3, 4, 5] ∧ frags.length = 3 := by
  obtain ⟨s', frags, h1, h2, h3, h4, _⟩ :=
    ussp_recv_data_fragments make_fcs_0710 2 ⟨[], []⟩ [1, 2, 3, 4, 5] 5 0 6
      (by decide) (by decide) (by decide) (by decide) (by decide)
  exact ⟨s', frags, h1, h2, h3, h4⟩

/-! ## The supervisor loop -/

/-- Whatever positive number of bytes the `read` on a readable endpoint
returns, the fragmenter is called with length 1. -/
theorem main_port_len (make_fcs : List Nat → Nat) (fuel : Nat) (st : Mux) (i : Nat)
    (e : PortEvent) (hi : i < st.ussp_fd.length) (hr : e.ready = true) (hn : e.nread > 0) :
    main_port make_fcs fuel st i e
      = (ussp_recv_data make_fcs st.max_frame_size fuel st.serial e.data 1 i).map
          (fun s => { st with serial := s }) := by
  unfold main_port
  simp only [hi, hr, hn, if_true]
  cases ussp_recv_data make_fcs st.max_frame_size fuel st.serial e.data 1 i <;> rfl

/-- C3 (the code at the failing input).  Endpoint 0 is readable and its `read`
returns 2 with `41 54` in the buffer: the supervisor calls `ussp_recv_data`
with length 1, and the only frame that reaches the serial handle carries the
single byte `41`; the byte `54` is in no frame although every write
completed. -/
theorem main_port_passes_length_one :
    main_port make_fcs_0710 3 demo_state 0 ⟨true, 2, [0x41, 0x54], 0⟩
      = some { demo_state with
          serial := ⟨spec_frame make_fcs_0710 1 UIH [0x41] false, []⟩ } := by
  decide

/-- With `terminate` set and nothing selected, an iteration is the terminate
block, run on a state that differs from the given one at most in `terminate`
(still set) and `currentTime`. -/
theorem main_iteration_closing (make_fcs : List Nat → Nat) (fuel : Nat) (st : Mux) (w : Wake)
    (hterm : st.terminate ≠ 0) (hsel : w.sel ≤ 0) :
    ∃ st1 : Mux, main_iteration make_fcs fuel st w = main_terminate make_fcs st1
      ∧ st1.terminate ≠ 0 ∧ st1.terminateCount = st.terminateCount
      ∧ st1.cstatus = st.cstatus ∧ st1.serial = st.serial
      ∧ st1.max_frame_size = st.max_frame_size := by
  have hsel' : ¬ w.sel > 0 := by omega
  unfold main_iteration
  simp only [hsel', if_false]
  by_cases hs : w.signal = true <;> by_cases hf : st.faultTolerant ≠ 0
  · refine ⟨{ st with terminate := 1, currentTime := w.now }, ?_, by simp, rfl, rfl, rfl, rfl⟩
    simp [hs, hf]
  · refine ⟨{ st with terminate := 1 }, ?_, by simp, rfl, rfl, rfl, rfl⟩
    simp [hs, hf]
  · refine ⟨{ st with currentTime := w.now }, ?_, hterm, rfl, rfl, rfl, rfl⟩
    simp [hs, hf, hterm]
  · refine ⟨st, ?_, hterm, rfl, rfl, rfl, rfl⟩
    simp [hs, hf, hterm]


theorem close_mux_frame_out (make_fcs : List Nat → Nat) (st : Mux)
    (hok : st.serial.allOk) (hm : 2 ≤ st.max_frame_size) :
    (write_frame make_fcs st.max_frame_size st.serial 0 close_mux 2 UIH).1.out
      = st.serial.out ++ spec_frame make_fcs 0 0xEF [0xC3, 0x01] true := by
  have h := (write_frame_ok make_fcs st.max_frame_size st.serial 0 close_mux 2 UIH hok
    (by omega) (by decide) (by decide)).2.1
  rw [min_eq_right hm] at h
  exact h

/-- One run of the terminate block, when writes complete: `terminateCount`
goes down by one and the frame of this step is the head of what the
specification lists from `terminateCount` down. -/
theorem main_terminate_step (make_fcs : List Nat → Nat) (st : Mux)
    (hok : st.serial.allOk) (hm : 2 ≤ st.max_frame_size) (htc : -1 ≤ st.terminateCount)
    (hlt : st.terminateCount < st.cstatus.length) :
    ∃ st', main_terminate make_fcs st = some st'
      ∧ st'.terminateCount = st.terminateCount - 1 ∧ st'.terminate = st.terminate
      ∧ st'.cstatus = st.cstatus ∧ st'.max_frame_size = st.max_frame_size
      ∧ st'.serial.allOk
      ∧ st'.serial.out ++ stepwise_close_frames make_fcs st.cstatus (st.terminateCount - 1)
          = st.serial.out ++ stepwise_close_frames make_fcs st.cstatus st.terminateCount := by
  unfold main_terminate
  by_cases hpos : st.terminateCount > 0
  · rw [if_pos hpos]
    have hidx : st.terminateCount.toNat < st.cstatus.length := by omega
    rw [List.getElem?_eq_getElem hidx]
    obtain ⟨c, hc⟩ : ∃ c : Nat, st.terminateCount.toNat = c + 1 :=
      ⟨st.terminateCount.toNat - 1, by omega⟩
    have hs1 : stepwise_close_frames make_fcs st.cstatus (st.terminateCount - 1)
        = close_frames make_fcs st.cstatus c := by
      have : (st.terminateCount - 1).toNat = c := by omega
      simp only [stepwise_close_frames, this]
      rw [if_neg (by omega)]
    have hs2 : stepwise_close_frames make_fcs st.cstatus st.terminateCount
        = (if st.cstatus[st.terminateCount.toNat].opened ≠ 0 then
            spec_frame make_fcs st.terminateCount 0x53 [] true else [])
          ++ close_frames make_fcs st.cstatus c := by
      have hcast : ((c + 1 : Nat) : Int) = st.terminateCount := by omega
      have hidx' : c + 1 < st.cstatus.length := by omega
      simp only [stepwise_close_frames, hc]
      rw [if_neg (by omega), close_frames, List.getElem?_eq_getElem hidx', hcast]
    rw [hs1, hs2]
    by_cases hop : st.cstatus[st.terminateCount.toNat].opened ≠ 0
    · simp only [hop, if_true, ne_eq, not_false_eq_true]
      have hw := write_frame_ok make_fcs st.max_frame_size st.serial st.terminateCount [] 0
        (DISC ||| PF) hok (by omega) (le_refl 0) (by decide)
      refine ⟨_, rfl, rfl, rfl, rfl, rfl, hw.2.2, ?_⟩
      have ho := send_empty_frame_out make_fcs st st.terminateCount 0x53 (by decide) hok
        (by omega)
      simp only [send_frame]
      rw [show DISC ||| PF = 0x53 from rfl, ho, List.append_assoc]
    · simp only [hop, if_false]
      exact ⟨_, rfl, rfl, rfl, rfl, rfl, hok, by simp⟩
  · rw [if_neg hpos]
    by_cases hz : st.terminateCount = 0
    · rw [if_pos hz]
      have hw := write_frame_ok make_fcs st.max_frame_size st.serial 0 close_mux 2 UIH hok
        (by omega) (by decide) (by decide)
      refine ⟨_, rfl, rfl, rfl, rfl, rfl, hw.2.2, ?_⟩
      simp only [send_frame]
      rw [close_mux_frame_out make_fcs st hok hm, hz]
      simp [stepwise_close_frames, close_frames]
    · rw [if_neg hz]
      refine ⟨_, rfl, rfl, rfl, rfl, rfl, hok, ?_⟩
      have h1 : st.terminateCount < 0 := by omega
      simp [stepwise_close_frames, h1, show st.terminateCount - 1 < 0 by omega]

theorem stepwise_close_loop (make_fcs : List Nat → Nat) (fuel : Nat) :
    ∀ (ws : List Wake) (st : Mux), st.terminate ≠ 0 → -2 ≤ st.terminateCount →
      st.terminateCount < st.cstatus.length → ws.length = (st.terminateCount + 2).toNat →
      st.serial.allOk → 2 ≤ st.max_frame_size → (∀ w ∈ ws, w.sel ≤ 0) →
      ∃ st', main_loop make_fcs fuel ws st = some (st', ws.length)
        ∧ st'.serial.out
            = st.serial.out ++ stepwise_close_frames make_fcs st.cstatus st.terminateCount
        ∧ st'.terminateCount = -2 ∧ st'.cstatus = st.cstatus := by
  intro ws
  induction ws with
  | nil =>
    intro st hterm htc _ hlen _ _ _
    have htc2 : st.terminateCount = -2 := by
      simp only [List.length_nil] at hlen
      omega
    have hstop : ¬ main_continues st := by
      unfold main_continues
      rw [htc2]
      simp [hterm]
    refine ⟨st, ?_, ?_, htc2, rfl⟩
    · unfold main_loop
      rw [if_neg hstop]
      rfl
    · simp [stepwise_close_frames, htc2]
  | cons w rest ih =>
    intro st hterm htc hlt hlen hok hm hsel
    have htc1 : -1 ≤ st.terminateCount := by
      simp only [List.length_cons] at hlen
      omega
    have hgo : main_continues st := Or.inr htc1
    obtain ⟨st1, hit, hterm1, htc', hcs1, hser1, hm1⟩ :=
      main_iteration_closing make_fcs fuel st w hterm (hsel w (List.mem_cons_self _ _))
    obtain ⟨st2, hstep, htc2, hterm2, hcs2, hm2, hok2, hout2⟩ :=
      main_terminate_step make_fcs st1 (by rw [hser1]; exact hok) (by omega) (by omega)
        (by rw [hcs1, htc']; exact hlt)
    obtain ⟨st', hrun, hout, hfin, hcs⟩ := ih st2 (by rw [hterm2]; exact hterm1) (by omega)
      (by rw [hcs2, hcs1, htc2, htc']; omega)
      (by simp only [List.length_cons] at hlen; omega) hok2 (by omega)
      (fun x hx => hsel x (List.mem_cons_of_mem _ hx))
    refine ⟨st', ?_, ?_, hfin, by rw [hcs, hcs2, hcs1]⟩
    · unfold main_loop
      rw [if_pos hgo]
      simp only [hit, hstep, hrun, Option.map_some', List.length_cons]
    · rw [hout, htc2, hcs2, hout2, hser1, hcs1, htc']

/-- During the stepwise close `terminateCount` goes down by one in every
iteration. -/
theorem stepwise_close_countdown (make_fcs : List Nat → Nat) (fuel : Nat) :
    ∀ (ws : List Wake) (st : Mux), st.terminate ≠ 0 →
      (ws.length : Int) ≤ st.terminateCount + 2 →
      st.terminateCount < st.cstatus.length →
      st.serial.allOk → 2 ≤ st.max_frame_size → (∀ w ∈ ws, w.sel ≤ 0) →
      ∃ st', main_after make_fcs fuel ws st = some st'
        ∧ st'.terminateCount = st.terminateCount - ws.length := by
  intro ws
  induction ws with
  | nil =>
    intro st _ _ _ _ _ _
    exact ⟨st, rfl, by simp⟩
  | cons w rest ih =>
    intro st hterm hlen hlt hok hm hsel
    have htc1 : -1 ≤ st.terminateCount := by
      simp only [List.length_cons, Nat.cast_add, Nat.cast_one] at hlen
      omega
    have hgo : main_continues st := Or.inr htc1
    obtain ⟨st1, hit, hterm1, htc', hcs1, hser1, hm1⟩ :=
      main_iteration_closing make_fcs fuel st w hterm (hsel w (List.mem_cons_self _ _))
    obtain ⟨st2, hstep, htc2, hterm2, hcs2, hm2, hok2, _⟩ :=
      main_terminate_step make_fcs st1 (by rw [hser1]; exact hok) (by omega) (by omega)
        (by rw [hcs1, htc']; exact hlt)
    obtain ⟨st', hrun, hfin⟩ := ih st2 (by rw [hterm2]; exact hterm1)
      (by simp only [List.length_cons, Nat.cast_add, Nat.cast_one] at hlen; omega)
      (by rw [hcs2, hcs1, htc2, htc']; omega) hok2 (by omega)
      (fun x hx => hsel x (List.mem_cons_of_mem _ hx))
    refine ⟨st', ?_, ?_⟩
    · simp only [main_after, if_pos hgo, hit, hstep, hrun]
    · rw [hfin, htc2, htc']
      simp only [List.length_cons, Nat.cast_add, Nat.cast_one]
      omega

/-- C9.  Stepwise close: with `terminate` set, `terminateCount = k`,
`-1 <= k <= N` (the channel table has `N + 1` entries), `max_frame_size >= 2`,
every serial write completing and `select` reporting nothing in the `k + 2`
wakes that follow, the supervisor loop makes exactly `k + 2` iterations and
stops with `terminateCount = -2`, `terminateCount` being `k - j` after `j` of
them; what it has appended to the serial handle is a zero-length `DISC|PF`
for each open channel `k, k-1, ..., 1` in that order followed, when `k >= 0`,
by one UIH frame on channel 0 with payload `C3 01`, and nothing at all when
`k = -1`. -/
theorem stepwise_close (make_fcs : List Nat → Nat) (fuel : Nat) (st : Mux) (k : Int)
    (ws : List Wake) (hterm : st.terminate ≠ 0) (hk : st.terminateCount = k)
    (hk1 : -1 ≤ k) (hkN : k < st.cstatus.length) (hm : 2 ≤ st.max_frame_size)
    (hok : st.serial.allOk) (hlen : ws.length = (k + 2).toNat) (hsel : ∀ w ∈ ws, w.sel ≤ 0) :
    ∃ st', main_loop make_fcs fuel ws st = some (st', (k + 2).toNat)
      ∧ st'.serial.out = st.serial.out ++ stepwise_close_frames make_fcs st.cstatus k
      ∧ st'.terminateCount = -2
      ∧ (k = -1 → st'.serial.out = st.serial.out)
      ∧ (∀ j : Nat, j ≤ (k + 2).toNat →
          ∃ stj, main_after make_fcs fuel (ws.take j) st = some stj
            ∧ stj.terminateCount = k - j) := by
  subst hk
  obtain ⟨st', h1, h2, h3, _⟩ := stepwise_close_loop make_fcs fuel ws st hterm (by omega) hkN
    hlen hok hm hsel
  refine ⟨st', by rw [← hlen]; exact h1, h2, h3, ?_, ?_⟩
  · intro hneg
    rw [h2, hneg]
    simp [stepwise_close_frames]
  · intro j hj
    have hjl : (ws.take j).length = j := by
      rw [List.length_take, hlen]; omega
    obtain ⟨stj, hrun, hcnt⟩ := stepwise_close_countdown make_fcs fuel (ws.take j) st hterm
      (by rw [hjl]; omega) hkN hok hm (fun w hw => hsel w (List.mem_of_mem_take hw))
    exact ⟨stj, hrun, by rw [hcnt, hjl]⟩

/-- Scenario S5: `N = 2`, both channels open, `k = 2`: four iterations, and the
frames sent are `DISC|PF` on channel 2, `DISC|PF` on channel 1, UIH on channel
0 with payload `C3 01`. -/
theorem stepwise_close_witness :
    ∃ st', main_loop make_fcs_0710 0 (List.replicate 4 (idle_wake 0))
        { demo_state with terminate := 1, cstatus := [⟨1, 0x8D⟩, ⟨1, 0x8D⟩, ⟨1, 0x8D⟩] }
          = some (st', 4)
      ∧ st'.serial.out
          = [0x7E, 0x0B, 0x53, 0x01, make_fcs_0710 [0x0B, 0x53, 0x01], 0x7E]
            ++ [0x7E, 0x07, 0x53, 0x01, make_fcs_0710 [0x07, 0x53, 0x01], 0x7E]
            ++ [0x7E, 0x03, 0xEF, 0x05, 0xC3, 0x01, make_fcs_0710 [0x03, 0xEF, 0x05], 0x7E]
      ∧ st'.terminateCount = -2 := by
  obtain ⟨st', h1, h2, h3, _⟩ := stepwise_close make_fcs_0710 0
    { demo_state with terminate := 1, cstatus := [⟨1, 0x8D⟩, ⟨1, 0x8D⟩, ⟨1, 0x8D⟩] } 2
    (List.replicate 4 (idle_wake 0)) (by decide) (by decide) (by decide) (by decide)
    (by decide) (by decide) (by decide) (by decide)
  exact ⟨st', h1, h2.trans (by decide), h3⟩

/-! ## The watchdog -/

theorem open_ptys_calls : ∀ (n i : Nat) (fds : List Int) (st : Mux) (r : Mux × Bool),
    open_ptys n i fds st = some r → r.1.closeDevices_calls = st.closeDevices_calls := by
  intro n
  induction n with
  | zero =>
    intro i fds st r h
    simp only [open_ptys, Option.some.injEq] at h
    rw [← h]
  | succ n ih =>
    intro i fds st r h
    cases fds with
    | nil => simp [open_ptys] at h
    | cons fd fds =>
      simp only [open_ptys] at h
      split_ifs at h with h1 h2 h3 h4 h5
      all_goals first
        | (simp only [Option.some.injEq] at h; rw [← h])
        | (have h9 := ih _ _ _ _ h; simpa using h9)

theorem send_sabms_calls (make_fcs : List Nat → Nat) : ∀ (n : Nat) (i : Int) (st : Mux),
    (send_sabms make_fcs n i st).closeDevices_calls = st.closeDevices_calls := by
  intro n
  induction n with
  | zero => intro i st; rfl
  | succ n ih => intro i st; simp only [send_sabms]; rw [ih]; rfl

theorem openDevicesAndMuxMode_calls (make_fcs : List Nat → Nat) (st : Mux) (env : Bringup)
    (r : Mux × Int) (h : openDevicesAndMuxMode make_fcs st env = some r) :
    r.1.closeDevices_calls = st.closeDevices_calls := by
  unfold openDevicesAndMuxMode at h
  split at h
  · cases h
  · rename_i st1 hop
    have h1 := open_ptys_calls _ _ _ _ _ hop
    simp only [Option.some.injEq] at h
    rw [← h]; exact h1
  · rename_i st1 hop
    have h1 := open_ptys_calls _ _ _ _ _ hop
    split_ifs at h with h2 h3
    · simp only [Option.some.injEq] at h
      rw [← h]; exact h1
    · dsimp only at h
      split at h
      · cases h
      · rename_i s4 ret hinit
        split_ifs at h with h4 h5
        all_goals first
          | (simp only [Option.some.injEq] at h; rw [← h]; simpa [set_opened] using h1)
          | (simp only [Option.some.injEq] at h; rw [← h, send_sabms_calls]
             simpa [set_opened, send_frame] using h1)

theorem main_restart_calls (make_fcs : List Nat → Nat) :
    ∀ (envs : List Bringup) (st st' : Mux), main_restart make_fcs envs st = some st' →
      st.closeDevices_calls + 1 ≤ st'.closeDevices_calls := by
  intro envs
  induction envs with
  | nil => intro st st' h; simp [main_restart] at h
  | cons env rest ih =>
    intro st st' h
    simp only [main_restart] at h
    split at h
    · cases h
    · rename_i st2 ret hopen
      have h2 := openDevicesAndMuxMode_calls make_fcs _ env _ hopen
      simp only [closeDevices] at h2
      split_ifs at h with h3 h4 h5 h6
      all_goals first
        | (injection h with h; subst h; exact Nat.le_of_eq h2.symm)
        | (have h7 := ih _ _ h
           have h8 : st2.closeDevices_calls + 1 ≤ st'.closeDevices_calls := h7
           omega)

/-- What the watchdog block does when no restart is due: a ping when the
time has come, nothing otherwise; `closeDevices` is not called. -/
theorem main_watchdog_quiet (make_fcs : List Nat → Nat) (st : Mux) (bringups : List Bringup)
    (hr : st.restart = 0) (hp : st.pingNumber < MAX_PINGS) :
    main_watchdog make_fcs st bringups
      = some (if st.frameReceiveTime + POLLING_INTERVAL * st.pingNumber < st.currentTime then
          { send_frame make_fcs st 0 ping_test PING_TEST_LEN UIH with
            pingNumber := st.pingNumber + 1 }
        else st) := by
  have hg : ¬ (st.restart ≠ 0 ∨ st.pingNumber ≥ MAX_PINGS) := by
    simp only [hr, ne_eq, not_true_eq_false, false_or, not_le]
    exact hp
  unfold main_watchdog
  rw [if_neg hg]
  split_ifs <;> rfl

/-- The watchdog block calls `closeDevices` exactly when the restart flag is
set or `pingNumber >= MAX_PINGS`. -/
theorem main_watchdog_restarts_iff (make_fcs : List Nat → Nat) (st st' : Mux)
    (bringups : List Bringup) (h : main_watchdog make_fcs st bringups = some st') :
    st.closeDevices_calls < st'.closeDevices_calls
      ↔ (st.restart ≠ 0 ∨ st.pingNumber ≥ MAX_PINGS) := by
  constructor
  · intro hlt
    by_contra hg
    have hr : st.restart = 0 := by
      by_contra hr; exact hg (Or.inl hr)
    have hp : st.pingNumber < MAX_PINGS := by
      by_contra hp; exact hg (Or.inr (by omega))
    rw [main_watchdog_quiet make_fcs st bringups hr hp] at h
    simp only [Option.some.injEq] at h
    rw [← h] at hlt
    split_ifs at hlt <;> exact lt_irrefl _ hlt
  · intro hg
    unfold main_watchdog at h
    rw [if_pos hg] at h
    have := main_restart_calls make_fcs _ _ _ h
    split_ifs at this <;> exact this

theorem main_terminate_calls (make_fcs : List Nat → Nat) (st st' : Mux)
    (h : main_terminate make_fcs st = some st') :
    st'.closeDevices_calls = st.closeDevices_calls := by
  unfold main_terminate at h
  split_ifs at h with h1 h2
  · split at h
    · cases h
    · injection h with h; subst h
      dsimp only
      split_ifs <;> rfl
  · injection h with h; subst h; rfl
  · injection h with h; subst h; rfl

theorem main_watchdog_calls (make_fcs : List Nat → Nat) (st st' : Mux)
    (bringups : List Bringup) (h : main_watchdog make_fcs st bringups = some st') :
    st.closeDevices_calls ≤ st'.closeDevices_calls := by
  by_cases hg : st.restart ≠ 0 ∨ st.pingNumber ≥ MAX_PINGS
  · exact Nat.le_of_lt ((main_watchdog_restarts_iff make_fcs st st' bringups h).mpr hg)
  · have hr : st.restart = 0 := by
      by_contra hr; exact hg (Or.inl hr)
    have hp : st.pingNumber < MAX_PINGS := by
      by_contra hp; exact hg (Or.inr (by omega))
    rw [main_watchdog_quiet make_fcs st bringups hr hp] at h
    injection h with h
    subst h
    split_ifs <;> exact Nat.le_refl _

/-- An iteration in which nothing is selected and no signal was handled is
the terminate block or the watchdog block, on the state with the clock read. -/
theorem main_iteration_idle (make_fcs : List Nat → Nat) (fuel : Nat) (st : Mux) (w : Wake)
    (hsel : w.sel ≤ 0) (hsig : w.signal = false) :
    main_iteration make_fcs fuel st w
      = if st.terminate ≠ 0 then
          main_terminate make_fcs
            (if st.faultTolerant ≠ 0 then { st with currentTime := w.now } else st)
        else if st.faultTolerant ≠ 0 then
          main_watchdog make_fcs { st with currentTime := w.now } w.bringups
        else some st := by
  have hsel' : ¬ w.sel > 0 := by omega
  unfold main_iteration
  simp only [hsel', hsig, if_false, Bool.false_eq_true]
  by_cases hf : st.faultTolerant ≠ 0 <;> by_cases ht : st.terminate ≠ 0 <;> simp [hf, ht]

theorem main_iteration_idle_calls (make_fcs : List Nat → Nat) (fuel : Nat) (st st' : Mux)
    (w : Wake) (hsel : w.sel ≤ 0) (hsig : w.signal = false)
    (h : main_iteration make_fcs fuel st w = some st') :
    st.closeDevices_calls ≤ st'.closeDevices_calls := by
  rw [main_iteration_idle make_fcs fuel st w hsel hsig] at h
  split_ifs at h with h1 h2 h3
  · exact Nat.le_of_eq (main_terminate_calls make_fcs _ _ h).symm
  · exact Nat.le_of_eq (main_terminate_calls make_fcs _ _ h).symm
  · have h4 := main_watchdog_calls make_fcs _ _ _ h
    exact h4
  · injection h with h; subst h; exact Nat.le_refl _

theorem main_after_idle_calls (make_fcs : List Nat → Nat) (fuel : Nat) :
    ∀ (ws : List Wake) (st st' : Mux), (∀ w ∈ ws, w.sel ≤ 0 ∧ w.signal = false) →
      main_after make_fcs fuel ws st = some st' →
      st.closeDevices_calls ≤ st'.closeDevices_calls := by
  intro ws
  induction ws with
  | nil =>
    intro st st' _ h
    simp only [main_after, Option.some.injEq] at h
    rw [h]
  | cons w rest ih =>
    intro st st' hidle h
    simp only [main_after] at h
    split_ifs at h with hgo
    split at h
    · cases h
    · rename_i st1 hit
      have h1 := main_iteration_idle_calls make_fcs fuel st st1 w
        (hidle w (List.mem_cons_self _ _)).1 (hidle w (List.mem_cons_self _ _)).2 hit
      have h2 := ih st1 st' (fun x hx => hidle x (List.mem_cons_of_mem _ hx)) h
      omega

theorem ping_frame_out (make_fcs : List Nat → Nat) (st : Mux)
    (hok : st.serial.allOk) (hm : 6 ≤ st.max_frame_size) :
    (write_frame make_fcs st.max_frame_size st.serial 0 ping_test PING_TEST_LEN UIH).1.out
        = st.serial.out ++ ping_frame make_fcs
      ∧ (write_frame make_fcs st.max_frame_size st.serial 0 ping_test PING_TEST_LEN UIH).1.allOk := by
  have h := write_frame_ok make_fcs st.max_frame_size st.serial 0 ping_test PING_TEST_LEN UIH
    hok (by omega) (by decide) (by decide)
  have hmin : min st.max_frame_size PING_TEST_LEN = 6 := by
    unfold PING_TEST_LEN; exact min_eq_right hm
  rw [hmin] at h
  exact ⟨h.2.1, h.2.2⟩

theorem watch_step (make_fcs : List Nat → Nat) (fuel : Nat) (c0 : Nat) (out0 : List Nat)
    (st st' : Mux) (w : Wake) (hinv : WatchInv make_fcs c0 out0 st)
    (hsel : w.sel ≤ 0) (hsig : w.signal = false)
    (h : main_iteration make_fcs fuel st w = some st') (hc : st'.closeDevices_calls = c0) :
    WatchInv make_fcs c0 out0 st' := by
  obtain ⟨hft, hterm, hres, hp1, hp4, hok, hm, hcalls, hout⟩ := hinv
  rw [main_iteration_idle make_fcs fuel st w hsel hsig] at h
  have hterm' : ¬ st.terminate ≠ 0 := by simp [hterm]
  rw [if_neg hterm', if_pos hft] at h
  by_cases hp : st.pingNumber < MAX_PINGS
  · rw [main_watchdog_quiet make_fcs { st with currentTime := w.now } w.bringups hres hp] at h
    injection h with h
    subst h
    split_ifs with hdue
    · obtain ⟨ho, hk⟩ := ping_frame_out make_fcs st hok hm
      refine ⟨hft, hterm, hres, ?_, ?_, hk, hm, hcalls, ?_⟩
      · show 1 ≤ st.pingNumber + 1
        omega
      · show st.pingNumber + 1 ≤ MAX_PINGS
        unfold MAX_PINGS at hp ⊢; omega
      · show (write_frame make_fcs st.max_frame_size st.serial 0 ping_test PING_TEST_LEN UIH).1.out
            = out0 ++ (List.replicate (st.pingNumber + 1 - 1).toNat (ping_frame make_fcs)).flatten
        have e : (st.pingNumber + 1 - 1).toNat = (st.pingNumber - 1).toNat + 1 := by omega
        rw [ho, hout, e, List.replicate_succ', List.flatten_append]
        simp
    · exact ⟨hft, hterm, hres, hp1, hp4, hok, hm, hcalls, hout⟩
  · exfalso
    have hg : st.restart ≠ 0 ∨ st.pingNumber ≥ MAX_PINGS := Or.inr (by omega)
    have hlt := (main_watchdog_restarts_iff make_fcs _ st' w.bringups h).mpr hg
    have hlt' : st.closeDevices_calls < st'.closeDevices_calls := hlt
    omega

theorem watch_run (make_fcs : List Nat → Nat) (fuel : Nat) (c0 : Nat) (out0 : List Nat) :
    ∀ (ws : List Wake) (st st' : Mux), WatchInv make_fcs c0 out0 st →
      (∀ w ∈ ws, w.sel ≤ 0 ∧ w.signal = false) →
      main_after make_fcs fuel ws st = some st' → st'.closeDevices_calls = c0 →
      WatchInv make_fcs c0 out0 st' := by
  intro ws
  induction ws with
  | nil =>
    intro st st' hinv _ h _
    simp only [main_after, Option.some.injEq] at h
    rw [← h]; exact hinv
  | cons w rest ih =>
    intro st st' hinv hidle h hc
    simp only [main_after] at h
    split_ifs at h with hgo
    split at h
    · cases h
    · rename_i st1 hit
      have hw := hidle w (List.mem_cons_self _ _)
      have hrest : ∀ x ∈ rest, x.sel ≤ 0 ∧ x.signal = false :=
        fun x hx => hidle x (List.mem_cons_of_mem _ hx)
      have h1 := main_iteration_idle_calls make_fcs fuel st st1 w hw.1 hw.2 hit
      have h2 := main_after_idle_calls make_fcs fuel rest st1 st' hrest h
      have hcalls := hinv.2.2.2.2.2.2.2.1
      have hc1 : st1.closeDevices_calls = c0 := by omega
      exact ih st1 st' (watch_step make_fcs fuel c0 out0 st st1 w hinv hw.1 hw.2 hit hc1)
        hrest h hc


/-- The record of attempts is faithful: the serial handle it ends with is the
one `ussp_recv_loop` computes. -/
theorem ussp_recv_trace_serial (make_fcs : List Nat → Nat) (mfs : Int) (buf : List Nat)
    (len port : Int) : ∀ (fuel : Nat) (s : Serial) (written i : Int),
    (ussp_recv_trace make_fcs mfs buf len port fuel s written i).map (·.1)
      = ussp_recv_loop make_fcs mfs buf len port fuel s written i := by
  intro fuel
  induction fuel with
  | zero => intro s written i; rfl
  | succ fuel ih =>
    intro s written i
    unfold ussp_recv_trace ussp_recv_loop
    split_ifs with h
    · dsimp only
      rw [← ih]
      cases ussp_recv_trace make_fcs mfs buf len port fuel
        (write_frame_copy make_fcs mfs s (port + 1) (buf.drop written.toNat) (len - written)
          UIH 0).1
        (written + (write_frame_copy make_fcs mfs s (port + 1) (buf.drop written.toNat)
          (len - written) UIH 0).2)
        (if (write_frame_copy make_fcs mfs s (port + 1) (buf.drop written.toNat)
          (len - written) UIH 0).2 = 0 then i + 1 else i) <;> rfl
    · rfl

/-- Whatever the writes do, `write_frame_copy` returns 0 or the clipped
count. -/
theorem write_frame_copy_result (make_fcs : List Nat → Nat) (mfs : Int) (s : Serial)
    (channel : Int) (input : List Nat) (count : Int) (type : Nat) (arg : Int) :
    (write_frame_copy make_fcs mfs s channel input count type arg).2 = 0
      ∨ (write_frame_copy make_fcs mfs s channel input count type arg).2 = min mfs count := by
  rw [write_frame_copy_parts]
  unfold write_parts
  dsimp only
  split_ifs <;> simp

theorem failed_attempts_cons (a : Int × Int) (attempts : List (Int × Int)) :
    failed_attempts (a :: attempts)
      = (if a.2 = 0 then 1 else 0) + failed_attempts attempts := by
  unfold failed_attempts
  by_cases h : a.2 = 0
  · simp [List.filter_cons, h]; omega
  · simp [List.filter_cons, h]

/-- The loop of `ussp_recv_data` under any behaviour of the writes, for
`max_frame_size >= 1`: it ends, `i` has grown by the number of failed attempts
whichever fragment they were spent on, it never exceeds 5, and the loop stops
short of `len` only with `i = 5`. -/
theorem ussp_recv_trace_total (make_fcs : List Nat → Nat) (mfs : Int) (buf : List Nat)
    (len port : Int) (hm : 1 ≤ mfs) :
    ∀ (fuel : Nat) (s : Serial) (written i : Int), 0 ≤ written → written ≤ len → 0 ≤ i →
      i ≤ 5 → (len - written).toNat + (5 - i).toNat + 1 ≤ fuel →
      ∃ (s' : Serial) (w' i' : Int) (attempts : List (Int × Int)),
        ussp_recv_trace make_fcs mfs buf len port fuel s written i
          = some (s', w', i', attempts)
        ∧ i' = i + failed_attempts attempts ∧ i' ≤ 5
        ∧ written ≤ w' ∧ w' ≤ len ∧ (w' ≠ len → i' = 5)
        ∧ (attempts.map (·.2)).sum = w' - written := by
  intro fuel
  induction fuel with
  | zero => intro s written i _ _ _ _ hf; omega
  | succ fuel ih =>
    intro s written i hw0 hwl hi0 hi5 hf
    unfold ussp_recv_trace
    by_cases hcond : written ≠ len ∧ i < WRITE_RETRIES
    · rw [if_pos hcond]
      dsimp only
      have hi : i < 5 := hcond.2
      have hne : written ≠ len := hcond.1
      have hres := write_frame_copy_result make_fcs mfs s (port + 1) (buf.drop written.toNat)
        (len - written) UIH 0
      generalize hr : write_frame_copy make_fcs mfs s (port + 1) (buf.drop written.toNat)
        (len - written) UIH 0 = r at hres
      have hmin1 : 1 ≤ min mfs (len - written) := le_min hm (by omega)
      have hmin2 : min mfs (len - written) ≤ len - written := min_le_right _ _
      rcases hres with h0 | hc
      · rw [h0]
        simp only [if_true, add_zero]
        obtain ⟨s', w', i', attempts, hrun, hcnt, hle, hlo, hhi, hstop, hsum⟩ :=
          ih r.1 written (i + 1) hw0 hwl (by omega) (by omega) (by omega)
        rw [hrun]
        refine ⟨s', w', i', (written, 0) :: attempts, rfl, ?_, hle, hlo, hhi, hstop, ?_⟩
        · rw [failed_attempts_cons, hcnt]
          simp only [if_true, Nat.cast_add, Nat.cast_one]
          omega
        · simp only [List.map_cons, List.sum_cons, zero_add]
          exact hsum
      · have hnz : ¬ r.2 = 0 := by omega
        simp only [hnz, if_false]
        obtain ⟨s', w', i', attempts, hrun, hcnt, hle, hlo, hhi, hstop, hsum⟩ :=
          ih r.1 (written + r.2) i (by omega) (by omega) hi0 hi5 (by omega)
        rw [hrun]
        refine ⟨s', w', i', (written, r.2) :: attempts, rfl, ?_, hle, by omega, hhi, hstop, ?_⟩
        · rw [failed_attempts_cons, hcnt]
          simp only [hnz, if_false, Nat.cast_add, Nat.cast_zero]
          omega
        · simp only [List.map_cons, List.sum_cons]
          omega
    · rw [if_neg hcond]
      refine ⟨s, written, i, [], rfl, by simp [failed_attempts], hi5, le_refl _, hwl, ?_,
        by simp⟩
      intro hne
      have : ¬ i < WRITE_RETRIES := fun h => hcond ⟨hne, h⟩
      unfold WRITE_RETRIES at this
      omega

/-- C12 (amended).  Retries of the fragmenter: for every buffer, every
`len >= 0`, `max_frame_size >= 1` and every pattern of successes and failures
of the writes, `ussp_recv_data` ends, and the frame writes of one call are
retried up to 5 times in total: `i` counts the failed attempts of the whole
call whichever fragment they were spent on, there are never more than 5 of
them, and the call stops before `len` bytes are accepted only when the fifth
attempt has failed, leaving the bytes from `written` on (the fragment at hand
and all that follow) unsent. -/
theorem ussp_recv_data_retries (make_fcs : List Nat → Nat) (max_frame_size : Int)
    (s : Serial) (buf : List Nat) (len port : Int) (fuel : Nat)
    (hm : 1 ≤ max_frame_size) (hlen : 0 ≤ len) (hfuel : len.toNat + 6 ≤ fuel) :
    ∃ (s' : Serial) (written i : Int) (attempts : List (Int × Int)),
      ussp_recv_trace make_fcs max_frame_size buf len port fuel s 0 0
        = some (s', written, i, attempts)
      ∧ ussp_recv_data make_fcs max_frame_size fuel s buf len port = some s'
      ∧ i = failed_attempts attempts ∧ failed_attempts attempts ≤ 5
      ∧ 0 ≤ written ∧ written ≤ len
      ∧ (written ≠ len → failed_attempts attempts = 5)
      ∧ (attempts.map (·.2)).sum = written := by
  obtain ⟨s', w', i', attempts, hrun, hcnt, hle, hlo, hhi, hstop, hsum⟩ :=
    ussp_recv_trace_total make_fcs max_frame_size buf len port hm fuel s 0 0 (le_refl 0) hlen
      (le_refl 0) (by decide) (by simpa using hfuel)
  have hser := ussp_recv_trace_serial make_fcs max_frame_size buf len port fuel s 0 0
  rw [hrun] at hser
  have hi : i' = failed_attempts attempts := by omega
  refine ⟨s', w', i', attempts, hrun, hser.symm, hi, by omega, hlo, hhi, ?_, by simpa using hsum⟩
  intro hne
  have := hstop hne
  omega

/-- C12 as stated fails: two fragments of one byte each; four attempts at the
first fail, the fifth succeeds, and the first attempt at the second fragment
fails.  The call ends there with `written = 1`: the second fragment is given
up after a single failed attempt at it, the failures spent on the first
fragment having used up its attempts. -/
theorem ussp_recv_data_retries_counterexample :
    ussp_recv_trace make_fcs_0710 1 [0x41, 0x54] 2 0 10
        ⟨[], [some 0, some 0, some 0, some 0, none, none, none, some 0]⟩ 0 0
      = some (⟨spec_frame make_fcs_0710 1 UIH [0x41] false, []⟩, 1, 5,
          [(0, 0), (0, 0), (0, 0), (0, 0), (0, 1), (1, 0)]) := by
  decide

/-- Two failed attempts at the first fragment, then every write completes:
both fragments are sent, and the two failures are what `i` has counted. -/
theorem ussp_recv_data_retries_witness :
    ∃ (s' : Serial) (attempts : List (Int × Int)),
      ussp_recv_trace make_fcs_0710 1 [0x41, 0x54] 2 0 8 ⟨[], [some 0, some 0]⟩ 0 0
        = some (s', 2, 2, attempts)
      ∧ ussp_recv_data make_fcs_0710 1 8 ⟨[], [some 0, some 0]⟩ [0x41, 0x54] 2 0 = some s'
      ∧ failed_attempts attempts = 2 := by
  obtain ⟨s', written, i, attempts, h1, h2, h3, _⟩ :=
    ussp_recv_data_retries make_fcs_0710 1 ⟨[], [some 0, some 0]⟩ [0x41, 0x54] 2 0 8
      (by decide) (by decide) (by decide)
  have h4 : ussp_recv_trace make_fcs_0710 1 [0x41, 0x54] 2 0 8 ⟨[], [some 0, some 0]⟩ 0 0
      = some (⟨spec_frame make_fcs_0710 1 UIH [0x41] false
          ++ spec_frame make_fcs_0710 1 UIH [0x54] false, []⟩, 2, 2,
          [(0, 0), (0, 0), (0, 1), (1, 1)]) := by decide
  rw [h4] at h1
  injection h1 with h1
  injection h1 with hs h1
  injection h1 with hw h1
  injection h1 with hi ha
  subst hs hw hi ha
  exact ⟨_, _, h4, h2, by decide⟩

/-! ## Read errors on an endpoint -/

/-- When the `read` on a readable endpoint returns nothing or fails, the body of
the loop over the virtual ports leaves the state as it is: `len` is 0, so
neither the fragmenter nor the reopening of lines 1179-1189 is reached. -/
theorem main_port_no_reopen (make_fcs : List Nat → Nat) (fuel : Nat) (st : Mux) (i : Nat)
    (e : PortEvent) (hi : i < st.ussp_fd.length) (hn : e.nread ≤ 0) :
    main_port make_fcs fuel st i e = some st := by
  have hn' : ¬ e.nread > 0 := by omega
  unfold main_port
  simp only [hi, hn', if_true, if_false]
  split_ifs <;> simp_all

/-- C13 (the code at the failing input).  Endpoint 0 is readable and its `read`
returns -1; reopening the device would fail (`open_pty` would return -1).  The
supervisor neither reopens the endpoint nor sets `terminate`: the state is
unchanged, descriptor 3 is still in `ussp_fd[0]`. -/
theorem main_port_read_error_ignored :
    main_port make_fcs_0710 3 demo_state 0 ⟨true, -1, [], -1⟩ = some demo_state := by
  decide

/-! ## The search for `OK` and `ERROR` -/

/-- C14 (the code at the failing input).  The buffer holds `OOK` (one byte of
garbage `O` before `OK`): `findInBuf` returns 0 although `OK` is a substring
of the buffer; `at_command` therefore does not see the answer. -/
theorem findInBuf_misses_after_partial_match :
    findInBuf (cstr "OOK") 3 (cstr "OK") = 0
      ∧ at_command_poll 100 [some (3, cstr "OOK")] = 0 := by
  decide

/-! ## The baud rate index -/

/-- C15.  Baud index table: `index_of_baud` maps 0 to 0, 9600 to 1, 19200 to
2, 38400 to 3, 57600 to 4, 115200 to 5, 230400 to 6, 460800 to 7 and every
other integer to 0; the result lies in `0..7`; `index_of_baud(baudrates[i]) = i`
for every `i` in `0..7`; and the bringup command is `AT+CMUX=0\r\n` when the
index is 0 and `AT+CMUX=0,0,<index>\r\n`, with the index as one decimal digit,
otherwise. -/
theorem index_of_baud_table (baudrate : Int) :
    index_of_baud baudrate
        = (if baudrate = 0 then 0 else if baudrate = 9600 then 1
          else if baudrate = 19200 then 2 else if baudrate = 38400 then 3
          else if baudrate = 57600 then 4 else if baudrate = 115200 then 5
          else if baudrate = 230400 then 6 else if baudrate = 460800 then 7 else 0)
      ∧ 0 ≤ index_of_baud baudrate ∧ index_of_baud baudrate ≤ 7
      ∧ (∀ i : Nat, i < 8 → index_of_baud (baudrates.getD i 0) = i)
      ∧ mux_command baudrate
          = (if index_of_baud baudrate = 0 then cstr "AT+CMUX=0\r\n"
            else cstr "AT+CMUX=0,0," ++ [48 + (index_of_baud baudrate).toNat]
              ++ cstr "\r\n") := by
  have htab : index_of_baud baudrate
        = (if baudrate = 0 then 0 else if baudrate = 9600 then 1
          else if baudrate = 19200 then 2 else if baudrate = 38400 then 3
          else if baudrate = 57600 then 4 else if baudrate = 115200 then 5
          else if baudrate = 230400 then 6 else if baudrate = 460800 then 7 else 0) := by
    by_cases h0 : baudrate = 0
    · subst h0; decide
    by_cases h1 : baudrate = 9600
    · subst h1; decide
    by_cases h2 : baudrate = 19200
    · subst h2; decide
    by_cases h3 : baudrate = 38400
    · subst h3; decide
    by_cases h4 : baudrate = 57600
    · subst h4; decide
    by_cases h5 : baudrate = 115200
    · subst h5; decide
    by_cases h6 : baudrate = 230400
    · subst h6; decide
    by_cases h7 : baudrate = 460800
    · subst h7; decide
    rw [if_neg h0, if_neg h1, if_neg h2, if_neg h3, if_neg h4, if_neg h5, if_neg h6, if_neg h7]
    unfold index_of_baud baudrates
    simp only [index_of_baud_loop]
    rw [if_neg (Ne.symm h0), if_neg (Ne.symm h1), if_neg (Ne.symm h2), if_neg (Ne.symm h3),
      if_neg (Ne.symm h4), if_neg (Ne.symm h5), if_neg (Ne.symm h6), if_neg (Ne.symm h7)]
  have hrange : 0 ≤ index_of_baud baudrate ∧ index_of_baud baudrate ≤ 7 := by
    rw [htab]; split_ifs <;> decide
  refine ⟨htab, hrange.1, hrange.2, ?_, ?_⟩
  · intro i hi
    interval_cases i <;> decide
  · unfold mux_command
    obtain ⟨h0, h7⟩ := hrange
    generalize index_of_baud baudrate = k at h0 h7
    have hk : k = 0 ∨ k = 1 ∨ k = 2 ∨ k = 3 ∨ k = 4 ∨ k = 5 ∨ k = 6 ∨ k = 7 := by omega
    rcases hk with h | h | h | h | h | h | h | h <;> subst h <;> decide

/-! ## The C/R bit by call site -/

theorem cr_bit_set : ∀ y < 64, (1 ||| 2 ||| (y <<< 2)) &&& 2 = 2 := by decide

theorem cr_bit_clear : ∀ y < 64, (1 ||| 0 ||| (y <<< 2)) &&& 2 = 0 := by decide

theorem addr_nocr_plain : ∀ x < 64, 1 ||| 0 ||| ((x &&& 63) <<< 2) = 1 ||| (x <<< 2) := by
  decide

theorem spec_addr_cr (channel : Int) :
    spec_addr channel true &&& 0x02 = 0x02 ∧ spec_addr channel false &&& 0x02 = 0 := by
  have hlt : bits channel &&& 63 < 64 := by
    rw [Nat.land_comm, land63]; exact Nat.mod_lt _ (by norm_num)
  unfold spec_addr
  exact ⟨cr_bit_set _ hlt, cr_bit_clear _ hlt⟩

/-! ## Table accesses of the link engine -/

/-- A frame that makes the link engine consult the channel table at an address
outside it has no defined outcome: for SABM, UA, DM and DISC nothing guards
`cstatus[frame->channel]`. -/
theorem handle_frame_cstatus_out_of_range (make_fcs : List Nat → Nat) (st : Mux)
    (frame : GSM0710_Frame) (ha : st.cstatus.length ≤ frame.channel)
    (hctl : strip_PF frame.control = SABM ∨ strip_PF frame.control = UA
      ∨ strip_PF frame.control = DM ∨ strip_PF frame.control = DISC) :
    handle_frame make_fcs st frame = none := by
  have hnone : st.cstatus[frame.channel]? = none := List.getElem?_eq_none ha
  unfold handle_frame
  rcases hctl with h | h | h | h <;>
    simp [FRAME_IS, h, hnone, SABM, UA, DM, DISC, UI, UIH]

/-- A UI or UIH frame whose address is above the number of endpoint handles
makes `ussp_send_data` index `ussp_fd` outside its bounds. -/
theorem handle_frame_ussp_fd_out_of_range (make_fcs : List Nat → Nat) (st : Mux)
    (frame : GSM0710_Frame) (ha : st.ussp_fd.length < frame.channel)
    (hctl : strip_PF frame.control = UI ∨ strip_PF frame.control = UIH) :
    handle_frame make_fcs st frame = none := by
  have hpos : frame.channel > 0 := by omega
  have hport : ¬ (0 ≤ (frame.channel : Int) - 1
      ∧ (frame.channel : Int) - 1 < st.ussp_fd.length) := by omega
  rw [handle_frame_info make_fcs st frame hctl, if_pos hpos]
  unfold ussp_send_data
  rw [if_neg hport]
  rfl

/-- C17 (the code at the failing input).  With `N = 2` endpoints (3 channel
entries, 2 endpoint handles), a SABM on address 5 makes `extract_frames` read
and write `cstatus[5]`, and a UIH on address 5 makes it write to
`ussp_fd[4]`: both accesses are outside the tables, which the embedding
reports as `none`. -/
theorem extract_frames_out_of_range :
    handle_frame make_fcs_0710 demo_state ⟨5, 0x3F, 0, []⟩ = none
      ∧ handle_frame make_fcs_0710 demo_state ⟨5, 0xEF, 1, [0x41]⟩ = none
      ∧ extract_frames make_fcs_0710 demo_state [⟨5, 0x3F, 0, []⟩] = none := by
  decide

/-! ## The iteration in two halves -/

/-- An iteration is its input handling followed by the terminate block or the
watchdog block. -/
theorem main_iteration_eq (make_fcs : List Nat → Nat) (fuel : Nat) (st : Mux) (w : Wake) :
    main_iteration make_fcs fuel st w
      = match main_input make_fcs fuel st w with
        | none => none
        | some g =>
          if g.terminate ≠ 0 then main_terminate make_fcs g
          else if g.faultTolerant ≠ 0 then main_watchdog make_fcs g w.bringups
          else some g := by
  unfold main_iteration main_input
  rfl

theorem emit_all_append (make_fcs : List Nat → Nat) (mfs : Int) (fuel : Nat) :
    ∀ (l1 l2 : List Emission) (s s1 s2 : Serial),
      emit_all make_fcs mfs fuel l1 s = some s1 → emit_all make_fcs mfs fuel l2 s1 = some s2 →
      emit_all make_fcs mfs fuel (l1 ++ l2) s = some s2 := by
  intro l1
  induction l1 with
  | nil =>
    intro l2 s s1 s2 h1 h2
    simp only [emit_all, Option.some.injEq] at h1
    subst h1
    exact h2
  | cons e rest ih =>
    intro l2 s s1 s2 h1 h2
    simp only [emit_all, List.cons_append] at h1 ⊢
    split at h1
    · cases h1
    · rename_i s3 he
      exact ih l2 s3 s1 s2 h1 h2

theorem emit_all_frame (make_fcs : List Nat → Nat) (mfs : Int) (fuel : Nat) (s : Serial)
    (channel : Int) (input : List Nat) (count : Int) (type : Nat) :
    emit_all make_fcs mfs fuel [.frame channel input count type] s
      = some (write_frame make_fcs mfs s channel input count type).1 := rfl

/-- What the link engine leaves alone when it handles a frame, and the one
thing it may send: nothing, or one frame through `write_frame`, which is a
`UA|PF` or `DM|PF` reply on the channel of the frame or the version UIH on the
control channel. -/
theorem handle_frame_emits (make_fcs : List Nat → Nat) (st st' : Mux) (frame : GSM0710_Frame)
    (h : handle_frame make_fcs st frame = some st') :
    st'.config = st.config ∧ st'.watch = st.watch
      ∧ (st.terminate ≠ 0 → st'.terminate ≠ 0)
      ∧ (st'.serial = st.serial
        ∨ st'.serial = (write_frame make_fcs st.max_frame_size st.serial 0 version_test 18 UIH).1
        ∨ st'.serial
            = (write_frame make_fcs st.max_frame_size st.serial frame.channel [] 0 (UA ||| PF)).1
        ∨ st'.serial
            = (write_frame make_fcs st.max_frame_size st.serial frame.channel [] 0
                (DM ||| PF)).1) := by
  unfold handle_frame ussp_send_data at h
  dsimp only at h
  split_ifs at h
  all_goals try split at h
  all_goals try split_ifs at h
  all_goals first
    | (simp only [Option.map_some', Option.some.injEq] at h
       subst h
       simp [Mux.config, Mux.watch, set_opened, send_frame])
    | cases h

/-! ## Transmissions of the parts of the program -/

theorem transmits_of_eq (make_fcs : List Nat → Nat) (fuel : Nat) (st st' : Mux)
    (hc : st'.config = st.config) (hs : st'.serial = st.serial) :
    Transmits make_fcs fuel st st' :=
  ⟨hc, [], by rw [hs]; rfl, by simp⟩

theorem transmits_trans (make_fcs : List Nat → Nat) (fuel : Nat) (st st1 st2 : Mux)
    (h1 : Transmits make_fcs fuel st st1) (h2 : Transmits make_fcs fuel st1 st2) :
    Transmits make_fcs fuel st st2 := by
  obtain ⟨hc1, l1, he1, hl1⟩ := h1
  obtain ⟨hc2, l2, he2, hl2⟩ := h2
  have hm : st1.max_frame_size = st.max_frame_size := congrArg (·.1) hc1
  have hb : st1.baudrate = st.baudrate := congrArg (·.2.2.2.1) hc1
  have hp : st1.pin_code = st.pin_code := congrArg (·.2.2.2.2) hc1
  rw [hm] at he2
  rw [hb, hp] at hl2
  refine ⟨hc2.trans hc1, l1 ++ l2, emit_all_append make_fcs _ fuel l1 l2 _ _ _ he1 he2, ?_⟩
  intro e he
  rcases List.mem_append.mp he with h | h
  · exact hl1 e h
  · exact hl2 e h

theorem transmits_frame (make_fcs : List Nat → Nat) (fuel : Nat) (st st' : Mux)
    (channel : Int) (input : List Nat) (count : Int) (type : Nat)
    (hc : st'.config = st.config)
    (hs : st'.serial = (write_frame make_fcs st.max_frame_size st.serial channel input count
      type).1)
    (hl : listed_emission st.baudrate st.pin_code (.frame channel input count type)) :
    Transmits make_fcs fuel st st' := by
  refine ⟨hc, [.frame channel input count type], ?_, ?_⟩
  · rw [hs]; rfl
  · intro e he
    rw [List.mem_singleton] at he
    rw [he]; exact hl

theorem handle_frame_transmits (make_fcs : List Nat → Nat) (fuel : Nat) (st st' : Mux)
    (frame : GSM0710_Frame) (h : handle_frame make_fcs st frame = some st') :
    Transmits make_fcs fuel st st' := by
  obtain ⟨hc, _, _, hs | hs | hs | hs⟩ := handle_frame_emits make_fcs st st' frame h
  · exact transmits_of_eq make_fcs fuel st st' hc hs
  · exact transmits_frame make_fcs fuel st st' _ _ _ _ hc hs
      (Or.inr (Or.inr (Or.inr (Or.inr ⟨rfl, rfl⟩))))
  · exact transmits_frame make_fcs fuel st st' _ _ _ _ hc hs (Or.inr (Or.inr (Or.inl rfl)))
  · exact transmits_frame make_fcs fuel st st' _ _ _ _ hc hs
      (Or.inr (Or.inr (Or.inr (Or.inl rfl))))

/-- What `extract_frames` leaves alone, what it returns, and what it sends. -/
theorem extract_frames_emits (make_fcs : List Nat → Nat) (fuel : Nat) :
    ∀ (frames : List GSM0710_Frame) (st st' : Mux) (n : Int),
      extract_frames make_fcs st frames = some (st', n) →
      n = frames.length ∧ st'.watch = st.watch ∧ (st.terminate ≠ 0 → st'.terminate ≠ 0)
        ∧ Transmits make_fcs fuel st st' := by
  intro frames
  induction frames with
  | nil =>
    intro st st' n h
    simp only [extract_frames, Option.some.injEq, Prod.mk.injEq] at h
    obtain ⟨h1, h2⟩ := h
    subst h1 h2
    exact ⟨rfl, rfl, fun x => x, transmits_of_eq make_fcs fuel _ _ rfl rfl⟩
  | cons frame rest ih =>
    intro st st' n h
    simp only [extract_frames] at h
    split at h
    · cases h
    · rename_i st1 h1
      split at h
      · cases h
      · rename_i st2 m h2
        simp only [Option.some.injEq, Prod.mk.injEq] at h
        obtain ⟨h3, h4⟩ := h
        subst h3 h4
        obtain ⟨hn, hw, ht, htr⟩ := ih st1 st2 m h2
        obtain ⟨_, hw1, ht1, _⟩ := handle_frame_emits make_fcs st st1 frame h1
        refine ⟨?_, hw.trans hw1, fun x => ht (ht1 x), ?_⟩
        · rw [hn]; simp
        · exact transmits_trans make_fcs fuel st st1 st2
            (handle_frame_transmits make_fcs fuel st st1 frame h1) htr

/-- The loop body for one endpoint changes nothing but the serial handle,
and that by at most one call `ussp_recv_data(buf, 1, i)`. -/
theorem main_port_emits (make_fcs : List Nat → Nat) (fuel : Nat) (st st' : Mux) (i : Nat)
    (e : PortEvent) (h : main_port make_fcs fuel st i e = some st') :
    st' = { st with serial := st'.serial }
      ∧ (st'.serial = st.serial
        ∨ ussp_recv_data make_fcs st.max_frame_size fuel st.serial e.data 1 i
            = some st'.serial) := by
  by_cases hi : i < st.ussp_fd.length
  · by_cases hr : e.ready = true
    · by_cases hn : e.nread > 0
      · rw [main_port_len make_fcs fuel st i e hi hr hn] at h
        cases hu : ussp_recv_data make_fcs st.max_frame_size fuel st.serial e.data 1 i with
        | none => rw [hu] at h; cases h
        | some s =>
          rw [hu] at h
          simp only [Option.map_some', Option.some.injEq] at h
          subst h
          exact ⟨rfl, Or.inr rfl⟩
      · rw [main_port_no_reopen make_fcs fuel st i e hi (by omega)] at h
        simp only [Option.some.injEq] at h
        subst h
        exact ⟨rfl, Or.inl rfl⟩
    · unfold main_port at h
      rw [if_pos hi, if_neg hr] at h
      simp only [Option.some.injEq] at h
      subst h
      exact ⟨rfl, Or.inl rfl⟩
  · unfold main_port at h
    simp only [hi, if_false] at h
    cases h

/-- The loop over the endpoints changes nothing but the serial handle, and
that by calls `ussp_recv_data(buf, 1, i)` only. -/
theorem main_ports_emits (make_fcs : List Nat → Nat) (fuel : Nat) (ports : List PortEvent) :
    ∀ (n i : Nat) (st st' : Mux), main_ports make_fcs fuel ports n i st = some st' →
      st' = { st with serial := st'.serial }
        ∧ ∃ log : List Emission,
            emit_all make_fcs st.max_frame_size fuel log st.serial = some st'.serial
            ∧ ∀ e ∈ log, ∃ (buf : List Nat) (port : Int), 0 ≤ port ∧ e = .data buf 1 port := by
  intro n
  induction n with
  | zero =>
    intro i st st' h
    simp only [main_ports, Option.some.injEq] at h
    subst h
    exact ⟨rfl, [], rfl, by simp⟩
  | succ n ih =>
    intro i st st' h
    simp only [main_ports] at h
    split at h
    · cases h
    · rename_i st1 h1
      obtain ⟨he1, hs1⟩ := main_port_emits make_fcs fuel st st1 i _ h1
      obtain ⟨he2, log, hl1, hl2⟩ := ih (i + 1) st1 st' h
      have hm : st1.max_frame_size = st.max_frame_size := by rw [he1]
      rw [hm] at hl1
      constructor
      · rw [he2, he1]
      · rcases hs1 with hs | hs
        · rw [hs] at hl1
          exact ⟨log, hl1, hl2⟩
        · refine ⟨.data (ports.getD i ⟨false, 0, [], 0⟩).data 1 i :: log, ?_, ?_⟩
          · simp only [emit_all, emit]
            rw [hs]
            exact hl1
          · intro e he
            rcases List.mem_cons.mp he with h3 | h3
            · exact ⟨_, _, Int.natCast_nonneg i, h3⟩
            · exact hl2 e h3

theorem main_ports_transmits (make_fcs : List Nat → Nat) (fuel : Nat) (ports : List PortEvent)
    (n i : Nat) (st st' : Mux) (h : main_ports make_fcs fuel ports n i st = some st') :
    Transmits make_fcs fuel st st' := by
  obtain ⟨he, log, hl1, hl2⟩ := main_ports_emits make_fcs fuel ports n i st st' h
  refine ⟨by rw [he]; rfl, log, hl1, ?_⟩
  intro e hmem
  obtain ⟨buf, port, hp, rfl⟩ := hl2 e hmem
  exact ⟨rfl, hp⟩

/-- The serial branch: what it leaves alone, what it sends, and when it
resets the watchdog. -/
theorem main_serial_emits (make_fcs : List Nat → Nat) (fuel : Nat) (st s : Mux) (w : Wake)
    (h : main_serial make_fcs st w = some s) :
    s.closeDevices_calls = st.closeDevices_calls ∧ s.currentTime = st.currentTime
      ∧ (st.terminate ≠ 0 → s.terminate ≠ 0)
      ∧ Transmits make_fcs fuel st s
      ∧ (st.faultTolerant ≠ 0 → w.size > 0 → w.serial_len > 0 → w.frames ≠ [] →
          s.pingNumber = 1 ∧ s.frameReceiveTime = st.currentTime)
      ∧ (¬ (w.size > 0 ∧ w.serial_len > 0 ∧ w.frames ≠ []) → s = st) := by
  unfold main_serial at h
  split_ifs at h with h1
  · split at h
    · cases h
    · rename_i st1 n hx
      obtain ⟨hn, hw, ht, htr⟩ := extract_frames_emits make_fcs fuel w.frames st st1 n hx
      have hw1 : st1.closeDevices_calls = st.closeDevices_calls := congrArg (·.2.2.2) hw
      have hw2 : st1.currentTime = st.currentTime := congrArg (·.2.2.1) hw
      have hf : st1.faultTolerant = st.faultTolerant := congrArg (·.2.2.1) htr.1
      split_ifs at h with h2
      · simp only [Option.some.injEq] at h
        subst h
        refine ⟨hw1, hw2, ht, ?_, fun _ _ _ _ => ⟨rfl, hw2⟩, ?_⟩
        · exact transmits_trans make_fcs fuel st st1 _ htr
            (transmits_of_eq make_fcs fuel _ _ rfl rfl)
        · intro hno
          exfalso
          apply hno
          refine ⟨h1.1, h1.2, ?_⟩
          intro hnil
          rw [hnil] at hn
          have h3 := h2.1
          rw [hn] at h3
          simp at h3
      · simp only [Option.some.injEq] at h
        subst h
        refine ⟨hw1, hw2, ht, htr, ?_, ?_⟩
        · intro hft _ _ hne
          exfalso
          apply h2
          refine ⟨?_, by rw [hf]; exact hft⟩
          rw [hn]
          have : 0 < w.frames.length := List.length_pos.mpr hne
          omega
        · intro hno
          have hnil : w.frames = [] := by
            by_contra hne
            exact hno ⟨h1.1, h1.2, hne⟩
          rw [hnil] at hx
          simp only [extract_frames, Option.some.injEq, Prod.mk.injEq] at hx
          exact hx.1.symm
  · simp only [Option.some.injEq] at h
    subst h
    refine ⟨rfl, rfl, fun x => x, transmits_of_eq make_fcs fuel _ _ rfl rfl, ?_, fun _ => rfl⟩
    intro _ h2 h3 _
    exact absurd ⟨h2, h3⟩ h1

/-- The input handling of an iteration: it calls no `closeDevices`, never
clears `terminate`, sends listed transmissions only, reads the clock in
fault-tolerant mode, resets the watchdog exactly when a frame is received, and
otherwise leaves the watchdog and the restart flag alone and sends only bytes
forwarded from the endpoints. -/
theorem main_input_emits (make_fcs : List Nat → Nat) (fuel : Nat) (st g : Mux) (w : Wake)
    (h : main_input make_fcs fuel st w = some g) :
    g.closeDevices_calls = st.closeDevices_calls
      ∧ (st.terminate ≠ 0 → g.terminate ≠ 0)
      ∧ Transmits make_fcs fuel st g
      ∧ (st.faultTolerant ≠ 0 → g.currentTime = w.now)
      ∧ (st.faultTolerant ≠ 0 → receives_frame w →
          g.pingNumber = 1 ∧ g.frameReceiveTime = w.now)
      ∧ (¬ receives_frame w →
          g.pingNumber = st.pingNumber ∧ g.frameReceiveTime = st.frameReceiveTime
          ∧ g.restart = st.restart
          ∧ ∃ log : List Emission,
              emit_all make_fcs st.max_frame_size fuel log st.serial = some g.serial
              ∧ ∀ e ∈ log, ∃ (buf : List Nat) (port : Int), 0 ≤ port ∧ e = .data buf 1 port) := by
  unfold main_input at h
  dsimp only at h
  generalize hst0 : (if w.signal = true then { st with terminate := 1 } else st) = st0 at h
  generalize hst1 :
    (if st0.faultTolerant ≠ 0 then { st0 with currentTime := w.now } else st0) = st1 at h
  have h0 : st0.config = st.config ∧ st0.watch = st.watch ∧ st0.serial = st.serial
      ∧ st0.restart = st.restart ∧ (st.terminate ≠ 0 → st0.terminate ≠ 0) := by
    rw [← hst0]
    split_ifs
    · exact ⟨rfl, rfl, rfl, rfl, fun _ => one_ne_zero⟩
    · exact ⟨rfl, rfl, rfl, rfl, fun x => x⟩
  obtain ⟨h0c, h0w, h0s, h0r, h0t⟩ := h0
  have h0f : st0.faultTolerant = st.faultTolerant := congrArg (·.2.2.1) h0c
  have h1 : st1.config = st.config ∧ st1.serial = st.serial ∧ st1.restart = st.restart
      ∧ st1.pingNumber = st.pingNumber ∧ st1.frameReceiveTime = st.frameReceiveTime
      ∧ st1.closeDevices_calls = st.closeDevices_calls
      ∧ (st.terminate ≠ 0 → st1.terminate ≠ 0)
      ∧ (st.faultTolerant ≠ 0 → st1.currentTime = w.now) := by
    have hp : st0.pingNumber = st.pingNumber := congrArg (·.1) h0w
    have hf : st0.frameReceiveTime = st.frameReceiveTime := congrArg (·.2.1) h0w
    have hcl : st0.closeDevices_calls = st.closeDevices_calls := congrArg (·.2.2.2) h0w
    rw [← hst1]
    split_ifs with hft
    · exact ⟨h0c, h0s, h0r, hp, hf, hcl, h0t, fun _ => rfl⟩
    · exact ⟨h0c, h0s, h0r, hp, hf, hcl, h0t, fun hx => absurd (h0f.trans_ne hx) hft⟩
  clear hst0 hst1 h0c h0w h0s h0r h0t h0f
  obtain ⟨h1c, h1s, h1r, h1p, h1f, h1cl, h1t, h1n⟩ := h1
  have h1m : st1.max_frame_size = st.max_frame_size := congrArg (·.1) h1c
  have h1ft : st1.faultTolerant = st.faultTolerant := congrArg (·.2.2.1) h1c
  have htr1 : Transmits make_fcs fuel st st1 := transmits_of_eq make_fcs fuel st st1 h1c h1s
  have hdata0 : ∃ log : List Emission,
      emit_all make_fcs st.max_frame_size fuel log st.serial = some st1.serial
      ∧ ∀ e ∈ log, ∃ (buf : List Nat) (port : Int), 0 ≤ port ∧ e = .data buf 1 port :=
    ⟨[], by rw [h1s]; rfl, by simp⟩
  by_cases hsel : w.sel > 0
  · -- input: the serial branch, then the endpoints
    rw [if_pos hsel] at h
    have hS : ∀ s : Mux, (if w.serial_ready = true then main_serial make_fcs st1 w
          else some st1) = some s →
        s.closeDevices_calls = st1.closeDevices_calls ∧ s.currentTime = st1.currentTime
          ∧ (st1.terminate ≠ 0 → s.terminate ≠ 0)
          ∧ Transmits make_fcs fuel st1 s
          ∧ (st1.faultTolerant ≠ 0 → receives_frame w →
              s.pingNumber = 1 ∧ s.frameReceiveTime = st1.currentTime)
          ∧ (¬ receives_frame w → s = st1) := by
      intro s hs
      by_cases hready : w.serial_ready = true
      · rw [if_pos hready] at hs
        obtain ⟨a, b, c, d, e, f⟩ := main_serial_emits make_fcs fuel st1 s w hs
        refine ⟨a, b, c, d, fun hft hrf => e hft hrf.2.2.1 hrf.2.2.2.1 hrf.2.2.2.2, ?_⟩
        intro hno
        apply f
        intro hx
        exact hno ⟨hsel, hready, hx⟩
      · rw [if_neg hready] at hs
        simp only [Option.some.injEq] at hs
        subst hs
        refine ⟨rfl, rfl, fun x => x, transmits_of_eq make_fcs fuel _ _ rfl rfl, ?_, fun _ => rfl⟩
        intro _ hrf
        exact absurd hrf.2.1 hready
    split at h
    · cases h
    · rename_i s hs
      obtain ⟨a, b, c, d, e, f⟩ := hS s hs
      obtain ⟨hg, log, hl1, hl2⟩ := main_ports_emits make_fcs fuel w.ports _ 0 s g h
      have hgc : g.closeDevices_calls = s.closeDevices_calls := by rw [hg]
      have hgt : g.terminate = s.terminate := by rw [hg]
      have hgn : g.currentTime = s.currentTime := by rw [hg]
      have hgp : g.pingNumber = s.pingNumber := by rw [hg]
      have hgf : g.frameReceiveTime = s.frameReceiveTime := by rw [hg]
      have hgr : g.restart = s.restart := by rw [hg]
      refine ⟨by rw [hgc, a, h1cl], ?_, ?_, ?_, ?_, ?_⟩
      · intro ht
        rw [hgt]
        exact c (h1t ht)
      · exact transmits_trans make_fcs fuel st st1 g htr1
          (transmits_trans make_fcs fuel st1 s g d
            (main_ports_transmits make_fcs fuel w.ports _ 0 s g h))
      · intro hft
        rw [hgn, b]
        exact h1n hft
      · intro hft hrf
        obtain ⟨e1, e2⟩ := e (by rw [h1ft]; exact hft) hrf
        exact ⟨by rw [hgp, e1], by rw [hgf, e2]; exact h1n hft⟩
      · intro hno
        have hs1 := f hno
        subst hs1
        rw [h1m, h1s] at hl1
        exact ⟨by rw [hgp, h1p], by rw [hgf, h1f], by rw [hgr, h1r], log, hl1, hl2⟩
  · rw [if_neg hsel] at h
    simp only [Option.some.injEq] at h
    subst h
    refine ⟨h1cl, h1t, htr1, h1n, ?_, ?_⟩
    · intro _ hrf
      exact absurd hrf.1 hsel
    · intro _
      exact ⟨h1p, h1f, h1r, hdata0⟩

/-! ## The watchdog after the input handling -/

theorem main_iteration_input (make_fcs : List Nat → Nat) (fuel : Nat) (st st' : Mux) (w : Wake)
    (hit : main_iteration make_fcs fuel st w = some st') :
    ∃ g : Mux, main_input make_fcs fuel st w = some g := by
  rw [main_iteration_eq] at hit
  cases hin : main_input make_fcs fuel st w with
  | none => rw [hin] at hit; cases hit
  | some g => exact ⟨g, rfl⟩

theorem main_terminate_transmits (make_fcs : List Nat → Nat) (fuel : Nat) (st st' : Mux)
    (h : main_terminate make_fcs st = some st') : Transmits make_fcs fuel st st' := by
  unfold main_terminate at h
  split_ifs at h with h1 h2
  · split at h
    · cases h
    · injection h with h; subst h
      split_ifs
      · exact transmits_frame make_fcs fuel st _ st.terminateCount [] 0 (DISC ||| PF) rfl rfl
          (Or.inr (Or.inl rfl))
      · exact transmits_of_eq make_fcs fuel st _ rfl rfl
  · injection h with h; subst h
    exact transmits_frame make_fcs fuel st _ 0 close_mux 2 UIH rfl rfl
      (Or.inr (Or.inr (Or.inr (Or.inr ⟨rfl, rfl⟩))))
  · injection h with h; subst h
    exact transmits_of_eq make_fcs fuel st _ rfl rfl

/-- `at_command` hands its command to the serial handle with one `write`. -/
theorem at_command_serial (s s' : Serial) (cmd : List Nat)
    (replies : List (Option (Int × List Nat))) (r : Int)
    (h : at_command s cmd replies = some (s', r)) :
    s' = (sysWrite s cmd cmd.length).1 := by
  unfold at_command at h
  dsimp only at h
  split_ifs at h
  simp only [Option.some.injEq, Prod.mk.injEq] at h
  exact h.1.symm

/-- `initGeneric` sends AT commands and, when the first `AT` is not answered,
the close-down frame through `write_frame`. -/
theorem initGeneric_emits (make_fcs : List Nat → Nat) (fuel : Nat)
    (mfs baudrate pin_code : Int) (s s' : Serial) (m : ModemReplies) (r : Int)
    (h : initGeneric make_fcs mfs baudrate pin_code s m = some (s', r)) :
    ∃ log : List Emission, emit_all make_fcs mfs fuel log s = some s'
      ∧ ∀ e ∈ log, listed_emission baudrate pin_code e := by
  unfold initGeneric at h
  split at h
  · cases h
  · rename_i s1 r1 h1
    have e1 := at_command_serial _ _ _ _ _ h1
    dsimp only at h
    split at h
    · cases h
    · rename_i s2 h2
      split at h
      · cases h
      · rename_i s3 h3
        split at h
        · cases h
        · rename_i s4 r4 h4
          have e4 := at_command_serial _ _ _ _ _ h4
          have hs' : s' = s4 := by
            split_ifs at h <;> simp only [Option.some.injEq, Prod.mk.injEq] at h <;>
              exact h.1.symm
          -- the transmissions between the first `AT` and `AT+CPIN`
          have l12 : ∃ log : List Emission, emit_all make_fcs mfs fuel log s1 = some s2
              ∧ ∀ e ∈ log, listed_emission baudrate pin_code e := by
            split_ifs at h2 with hr1
            · cases ha : at_command (write_frame make_fcs mfs s1 0 close_mux 2 UIH).1
                  (cstr "AT\r\n") m.at2 with
              | none => rw [ha] at h2; cases h2
              | some p =>
                obtain ⟨sa, ra⟩ := p
                rw [ha] at h2
                simp only [Option.map_some', Option.some.injEq] at h2
                subst h2
                have ea := at_command_serial _ _ _ _ _ ha
                refine ⟨[.frame 0 close_mux 2 UIH, .command (cstr "AT\r\n")], ?_, ?_⟩
                · simp only [emit_all, emit]
                  rw [ea]
                · intro e he
                  simp only [List.mem_cons, List.mem_singleton, List.not_mem_nil, or_false] at he
                  rcases he with he | he
                  · rw [he]; exact Or.inr (Or.inr (Or.inr (Or.inr ⟨rfl, rfl⟩)))
                  · rw [he]; exact Or.inl rfl
            · simp only [Option.some.injEq] at h2
              subst h2
              exact ⟨[], rfl, by simp⟩
          -- the `AT+CPIN` command
          have l23 : ∃ log : List Emission, emit_all make_fcs mfs fuel log s2 = some s3
              ∧ ∀ e ∈ log, listed_emission baudrate pin_code e := by
            split_ifs at h3 with hpin
            · cases ha : at_command s2
                  (cstr "AT+CPIN=" ++ cstr (toString pin_code) ++ cstr "\r\n") m.cpin with
              | none => rw [ha] at h3; cases h3
              | some p =>
                obtain ⟨sa, ra⟩ := p
                rw [ha] at h3
                simp only [Option.map_some', Option.some.injEq] at h3
                subst h3
                have ea := at_command_serial _ _ _ _ _ ha
                refine ⟨[.command (cstr "AT+CPIN=" ++ cstr (toString pin_code) ++ cstr "\r\n")],
                  ?_, ?_⟩
                · simp only [emit_all, emit]
                  rw [ea]
                · intro e he
                  rw [List.mem_singleton] at he
                  rw [he]; exact Or.inr (Or.inl rfl)
            · simp only [Option.some.injEq] at h3
              subst h3
              exact ⟨[], rfl, by simp⟩
          obtain ⟨la, ha1, ha2⟩ := l12
          obtain ⟨lb, hb1, hb2⟩ := l23
          refine ⟨[.command (cstr "AT\r\n")] ++ (la ++ (lb ++ [.command (mux_command baudrate)])),
            ?_, ?_⟩
          · refine emit_all_append make_fcs mfs fuel _ _ s s1 s' ?_ ?_
            · simp only [emit_all, emit]
              rw [e1]
            · refine emit_all_append make_fcs mfs fuel _ _ s1 s2 s' ha1 ?_
              refine emit_all_append make_fcs mfs fuel _ _ s2 s3 s' hb1 ?_
              simp only [emit_all, emit]
              rw [hs', e4]
          · intro e he
            simp only [List.mem_append, List.mem_singleton] at he
            rcases he with he | he | he | he
            · rw [he]; exact Or.inl rfl
            · exact ha2 e he
            · exact hb2 e he
            · rw [he]; exact Or.inr (Or.inr rfl)

theorem open_ptys_keeps : ∀ (n i : Nat) (fds : List Int) (st : Mux) (r : Mux × Bool),
    open_ptys n i fds st = some r → r.1.config = st.config ∧ r.1.serial = st.serial := by
  intro n
  induction n with
  | zero =>
    intro i fds st r h
    simp only [open_ptys, Option.some.injEq] at h
    rw [← h]
    exact ⟨rfl, rfl⟩
  | succ n ih =>
    intro i fds st r h
    cases fds with
    | nil => simp [open_ptys] at h
    | cons fd fds =>
      simp only [open_ptys] at h
      split_ifs at h with h1 h2 h3 h4 h5
      all_goals first
        | (simp only [Option.some.injEq] at h; rw [← h]; exact ⟨rfl, rfl⟩)
        | (have h9 := ih _ _ _ _ h; exact h9)

theorem send_sabms_transmits (make_fcs : List Nat → Nat) (fuel : Nat) :
    ∀ (n : Nat) (i : Int) (st : Mux), Transmits make_fcs fuel st (send_sabms make_fcs n i st) := by
  intro n
  induction n with
  | zero => intro i st; exact transmits_of_eq make_fcs fuel st _ rfl rfl
  | succ n ih =>
    intro i st
    simp only [send_sabms]
    exact transmits_trans make_fcs fuel st _ _
      (transmits_frame make_fcs fuel st (send_frame make_fcs st i [] 0 (SABM ||| PF)) i [] 0
        (SABM ||| PF) rfl rfl (Or.inl rfl))
      (ih (i + 1) _)

/-- `openDevicesAndMuxMode` sends what `initGeneric` sends and then a `SABM|PF`
per logical channel, each through `write_frame`. -/
theorem openDevicesAndMuxMode_transmits (make_fcs : List Nat → Nat) (fuel : Nat) (st : Mux)
    (env : Bringup) (r : Mux × Int) (h : openDevicesAndMuxMode make_fcs st env = some r) :
    Transmits make_fcs fuel st r.1 := by
  unfold openDevicesAndMuxMode at h
  split at h
  · cases h
  · rename_i st1 hop
    obtain ⟨hc, hs⟩ := open_ptys_keeps _ _ _ _ _ hop
    simp only [Option.some.injEq] at h
    rw [← h]
    exact transmits_of_eq make_fcs fuel st st1 hc hs
  · rename_i st1 hop
    obtain ⟨hc, hs⟩ := open_ptys_keeps _ _ _ _ _ hop
    have hc1 : st1.config = st.config := hc
    have hs1 : st1.serial = st.serial := hs
    have t1 : Transmits make_fcs fuel st st1 := transmits_of_eq make_fcs fuel st st1 hc1 hs1
    split_ifs at h with h2 h3
    · simp only [Option.some.injEq] at h
      rw [← h]
      exact transmits_trans make_fcs fuel st st1 _ t1 (transmits_of_eq make_fcs fuel _ _ rfl rfl)
    · dsimp only at h
      generalize hst3 : (if env.serial_fd > (set_opened st1 st1.numOfPorts.toNat 0).maxfd then
          { set_opened st1 st1.numOfPorts.toNat 0 with maxfd := env.serial_fd }
        else set_opened st1 st1.numOfPorts.toNat 0) = st3 at h
      have h3c : st3.config = st1.config ∧ st3.serial = st1.serial := by
        rw [← hst3]
        split_ifs <;> exact ⟨rfl, rfl⟩
      obtain ⟨h3c, h3s⟩ := h3c
      have h3m : st3.max_frame_size = st1.max_frame_size := congrArg (·.1) h3c
      have h3b : st3.baudrate = st1.baudrate := congrArg (·.2.2.2.1) h3c
      have h3p : st3.pin_code = st1.pin_code := congrArg (·.2.2.2.2) h3c
      split at h
      · cases h
      · rename_i s4 ret hinit
        obtain ⟨log, hl1, hl2⟩ := initGeneric_emits make_fcs fuel _ _ _ _ _ _ _ hinit
        rw [h3m, h3s] at hl1
        rw [h3b, h3p] at hl2
        have t3 : Transmits make_fcs fuel st1 { st3 with serial := s4 } :=
          ⟨h3c, log, hl1, hl2⟩
        split_ifs at h with h4
        · simp only [Option.some.injEq] at h
          rw [← h]
          exact transmits_trans make_fcs fuel st st1 _ t1 t3
        · simp only [Option.some.injEq] at h
          rw [← h]
          refine transmits_trans make_fcs fuel st st1 _ t1
            (transmits_trans make_fcs fuel st1 _ _ t3 ?_)
          refine transmits_trans make_fcs fuel _ _ _ ?_
            (send_sabms_transmits make_fcs fuel _ _ _)
          exact transmits_frame make_fcs fuel { st3 with serial := s4 }
            (send_frame make_fcs { st3 with serial := s4, terminateCount := st3.numOfPorts } 0 []
              0 (SABM ||| PF)) 0 [] 0 (SABM ||| PF) rfl rfl (Or.inl rfl)

theorem main_restart_transmits (make_fcs : List Nat → Nat) (fuel : Nat) :
    ∀ (envs : List Bringup) (st st' : Mux), main_restart make_fcs envs st = some st' →
      Transmits make_fcs fuel st st' := by
  intro envs
  induction envs with
  | nil => intro st st' h; simp [main_restart] at h
  | cons env rest ih =>
    intro st st' h
    simp only [main_restart] at h
    split at h
    · cases h
    · rename_i st2 ret hopen
      have t1 : Transmits make_fcs fuel st st2 :=
        transmits_trans make_fcs fuel st _ st2 (transmits_of_eq make_fcs fuel st _ rfl rfl)
          (openDevicesAndMuxMode_transmits make_fcs fuel _ env _ hopen)
      split_ifs at h with h3 h4 h5 h6
      all_goals first
        | (injection h with h; subst h
           exact transmits_trans make_fcs fuel st st2 _ t1
             (transmits_of_eq make_fcs fuel _ _ rfl rfl))
        | (refine transmits_trans make_fcs fuel st _ st' ?_ (ih _ _ h)
           exact transmits_trans make_fcs fuel st st2 _ t1
             (transmits_of_eq make_fcs fuel _ _ rfl rfl))

theorem main_watchdog_transmits (make_fcs : List Nat → Nat) (fuel : Nat) (st st' : Mux)
    (bringups : List Bringup) (h : main_watchdog make_fcs st bringups = some st') :
    Transmits make_fcs fuel st st' := by
  unfold main_watchdog at h
  split_ifs at h with h1 h2 h3
  · refine transmits_trans make_fcs fuel st _ st' ?_
      (main_restart_transmits make_fcs fuel bringups _ st' h)
    exact transmits_of_eq make_fcs fuel st _ rfl rfl
  · refine transmits_trans make_fcs fuel st _ st' ?_
      (main_restart_transmits make_fcs fuel bringups _ st' h)
    exact transmits_of_eq make_fcs fuel st _ rfl rfl
  · injection h with h; subst h
    exact transmits_frame make_fcs fuel st _ 0 ping_test PING_TEST_LEN UIH rfl rfl
      (Or.inr (Or.inr (Or.inr (Or.inr ⟨rfl, rfl⟩))))
  · injection h with h; subst h
    exact transmits_of_eq make_fcs fuel st _ rfl rfl

/-- Everything an iteration of the supervisor hands to the serial handle is a
listed transmission. -/
theorem main_iteration_transmits (make_fcs : List Nat → Nat) (fuel : Nat) (st st' : Mux)
    (w : Wake) (hit : main_iteration make_fcs fuel st w = some st') :
    Transmits make_fcs fuel st st' := by
  obtain ⟨g, hin⟩ := main_iteration_input make_fcs fuel st st' w hit
  have t1 := (main_input_emits make_fcs fuel st g w hin).2.2.1
  rw [main_iteration_eq, hin] at hit
  dsimp only at hit
  split_ifs at hit with h1 h2
  · exact transmits_trans make_fcs fuel st g st' t1 (main_terminate_transmits make_fcs fuel g st' hit)
  · exact transmits_trans make_fcs fuel st g st' t1
      (main_watchdog_transmits make_fcs fuel g st' w.bringups hit)
  · injection hit with hit; subst hit; exact t1

/-! ## The C/R bit of every transmission -/

/-- C16 (amended).  The C/R = 0 encoder path is the one the endpoint bridge
uses: every iteration of the loop of `ussp_recv_data` is a call
`write_frame_copy(port + 1, buf + written, len - written, UIH, 0)`, with
`arg == 0`; so the UIH data frames it emits (when writes complete) have the
C/R bit `0x02` clear, and for endpoint `i` in `0..62` their address octet is
`0x01 | ((i+1) << 2)`.  Everything else the program transmits goes through
`write_frame`: whatever an iteration of the supervisor loop (link engine,
stepwise close, watchdog, restart) and whatever the bringup
`openDevicesAndMuxMode` hand to the serial handle is a sequence of calls
`write_frame(channel, input, count, type)` with `type` one of `SABM|PF`,
`DISC|PF`, `UA|PF`, `DM|PF`, or `UIH` on channel 0 (version announcement,
close-down, ping), of calls `ussp_recv_data(buf, 1, i)` for the endpoints, and
of AT commands; the link engine sends at most one frame per frame handled, a
`UA|PF` or `DM|PF` reply or the version UIH.  The frames sent by `write_frame`
(when writes complete) have the C/R bit set.  In the record of transmissions a
`frame` is a call of `write_frame` and a `data` a call of `ussp_recv_data`. -/
theorem cr_bit_by_call_site (make_fcs : List Nat → Nat) :
    (∀ (mfs : Int) (buf : List Nat) (len port : Int) (fuel : Nat) (s : Serial)
        (written i : Int), written ≠ len → i < WRITE_RETRIES →
        ussp_recv_loop make_fcs mfs buf len port (fuel + 1) s written i
          = ussp_recv_loop make_fcs mfs buf len port fuel
              (write_frame_copy make_fcs mfs s (port + 1) (buf.drop written.toNat)
                (len - written) UIH 0).1
              (written + (write_frame_copy make_fcs mfs s (port + 1)
                (buf.drop written.toNat) (len - written) UIH 0).2)
              (if (write_frame_copy make_fcs mfs s (port + 1) (buf.drop written.toNat)
                (len - written) UIH 0).2 = 0 then i + 1 else i))
    ∧ (∀ (mfs : Int) (s : Serial) (buf : List Nat) (len port : Int) (fuel : Nat),
        s.allOk → 1 ≤ mfs → 0 ≤ len → len ≤ buf.length → len.toNat + 1 ≤ fuel →
        ∃ (s' : Serial) (frags : List (List Nat)),
          ussp_recv_data make_fcs mfs fuel s buf len port = some s'
          ∧ s'.out = s.out
              ++ (frags.map (fun p => spec_frame make_fcs (port + 1) UIH p false)).flatten
          ∧ frags.flatten = buf.take len.toNat)
    ∧ (∀ port : Int, 0 ≤ port → port < 63 →
        spec_addr (port + 1) false = 0x01 ||| ((port + 1).toNat <<< 2)
        ∧ spec_addr (port + 1) false &&& 0x02 = 0)
    ∧ (∀ (fuel : Nat) (st st' : Mux) (w : Wake),
        main_iteration make_fcs fuel st w = some st' →
        ∃ log : List Emission,
          emit_all make_fcs st.max_frame_size fuel log st.serial = some st'.serial
          ∧ ∀ e ∈ log, listed_emission st.baudrate st.pin_code e)
    ∧ (∀ (fuel : Nat) (st st' : Mux) (env : Bringup) (r : Int),
        openDevicesAndMuxMode make_fcs st env = some (st', r) →
        ∃ log : List Emission,
          emit_all make_fcs st.max_frame_size fuel log st.serial = some st'.serial
          ∧ ∀ e ∈ log, listed_emission st.baudrate st.pin_code e)
    ∧ (∀ (st st' : Mux) (frame : GSM0710_Frame), handle_frame make_fcs st frame = some st' →
        st'.serial = st.serial
        ∨ st'.serial = (write_frame make_fcs st.max_frame_size st.serial 0 version_test 18 UIH).1
        ∨ st'.serial
            = (write_frame make_fcs st.max_frame_size st.serial frame.channel [] 0 (UA ||| PF)).1
        ∨ st'.serial
            = (write_frame make_fcs st.max_frame_size st.serial frame.channel [] 0 (DM ||| PF)).1)
    ∧ (∀ (mfs : Int) (s : Serial) (channel : Int) (input : List Nat) (count : Int)
        (type : Nat), s.allOk → 0 ≤ mfs → 0 ≤ count → type < 256 →
        (write_frame make_fcs mfs s channel input count type).1.out
          = s.out ++ spec_bytes make_fcs channel type (min mfs count).toNat
              (input.take (min mfs count).toNat) true)
    ∧ (∀ channel : Int, spec_addr channel true &&& 0x02 = 0x02)
    ∧ (∀ (mfs : Int) (fuel : Nat) (s : Serial) (channel : Int) (input : List Nat) (count : Int)
        (type : Nat),
        emit make_fcs mfs fuel s (.frame channel input count type)
          = some (write_frame make_fcs mfs s channel input count type).1)
    ∧ (∀ (mfs : Int) (fuel : Nat) (s : Serial) (buf : List Nat) (len port : Int),
        emit make_fcs mfs fuel s (.data buf len port)
          = ussp_recv_data make_fcs mfs fuel s buf len port) := by
  refine ⟨?_, ?_, ?_, ?_, ?_, ?_, ?_, fun channel => (spec_addr_cr channel).1,
    fun _ _ _ _ _ _ _ => rfl, fun _ _ _ _ _ _ => rfl⟩
  · intro mfs buf len port fuel s written i hw hi
    have hcond : written ≠ len ∧ i < WRITE_RETRIES := ⟨hw, hi⟩
    rw [ussp_recv_loop, if_pos hcond]
  · intro mfs s buf len port fuel hok hm hlen hbuf hfuel
    obtain ⟨s', frags, h1, _, h2, h3, _⟩ :=
      ussp_recv_loop_ok make_fcs mfs buf len port hm hbuf fuel s 0 0 hok (le_refl 0)
        hlen (by simpa using hfuel) (by decide)
    exact ⟨s', frags, h1, h2, by simpa using h3⟩
  · intro port hp0 hp63
    have hb : bits (port + 1) = (port + 1).toNat := by
      rw [bits_of_nonneg _ (by omega)]
      exact Nat.mod_eq_of_lt (by omega)
    refine ⟨?_, (spec_addr_cr (port + 1)).2⟩
    unfold spec_addr
    rw [hb]
    exact addr_nocr_plain _ (by omega)
  · intro fuel st st' w hit
    exact (main_iteration_transmits make_fcs fuel st st' w hit).2
  · intro fuel st st' env r h
    exact (openDevicesAndMuxMode_transmits make_fcs fuel st env (st', r) h).2
  · intro st st' frame h
    exact (handle_frame_emits make_fcs st st' frame h).2.2.2
  · intro mfs s channel input count type hok hm hc ht
    exact (write_frame_ok make_fcs mfs s channel input count type hok hm hc ht).2.1

/-- C16 as stated fails: the byte `41` read from endpoint 0 goes out in a frame
whose address octet is `05`, with the C/R bit clear, not `07 = 0x03 | (1 << 2)`. -/
theorem cr_bit_by_call_site_counterexample :
    ussp_recv_data make_fcs_0710 31 3 ⟨[], []⟩ [0x41] 1 0
        = some ⟨[0x7E, 0x05, 0xEF, 0x03, 0x41, make_fcs_0710 [0x05, 0xEF, 0x03], 0x7E], []⟩
      ∧ 0x05 &&& 0x02 = 0 ∧ 0x05 ≠ 0x03 ||| ((0 + 1) <<< 2) := by
  decide

/-- Two bytes from endpoint 1: the data frame is addressed `09 = 0x01 | (2 << 2)`,
C/R clear; a SABM for the same channel sent through `write_frame` is addressed
`0B`, C/R set.  An iteration in which endpoint 0 delivers a byte and the ping
is due, and a bringup of the two endpoints, transmit listed transmissions
only. -/
theorem cr_bit_by_call_site_witness :
    (∃ (s' : Serial) (frags : List (List Nat)),
        ussp_recv_data make_fcs_0710 31 3 ⟨[], []⟩ [0x41, 0x54] 2 1 = some s'
        ∧ s'.out = [] ++ (frags.map (fun p => spec_frame make_fcs_0710 (1 + 1) UIH p false)).flatten
        ∧ frags.flatten = [0x41, 0x54])
      ∧ spec_addr (1 + 1) false = 0x09
      ∧ (write_frame make_fcs_0710 31 ⟨[], []⟩ 2 [] 0 0x3F).1.out
          = [0x7E, 0x0B, 0x3F, 0x01, make_fcs_0710 [0x0B, 0x3F, 0x01], 0x7E]
      ∧ (∃ st' : Mux,
          main_iteration make_fcs_0710 3 watch_state
              { idle_wake 6 with sel := 1, ports := [⟨true, 1, [0x41], 0⟩] } = some st'
          ∧ ∃ log : List Emission,
              emit_all make_fcs_0710 watch_state.max_frame_size 3 log watch_state.serial
                = some st'.serial
              ∧ ∀ e ∈ log, listed_emission watch_state.baudrate watch_state.pin_code e)
      ∧ (∃ st' : Mux,
          openDevicesAndMuxMode make_fcs_0710 demo_state (bringup_ok 0) = some (st', 0)
          ∧ ∃ log : List Emission,
              emit_all make_fcs_0710 demo_state.max_frame_size 3 log demo_state.serial
                = some st'.serial
              ∧ ∀ e ∈ log, listed_emission demo_state.baudrate demo_state.pin_code e) :=
  ⟨(cr_bit_by_call_site make_fcs_0710).2.1 31 ⟨[], []⟩ [0x41, 0x54] 2 1 3 (by decide)
      (by decide) (by decide) (by decide) (by decide),
    ((cr_bit_by_call_site make_fcs_0710).2.2.1 1 (by decide) (by decide)).1.trans (by decide),
    ((cr_bit_by_call_site make_fcs_0710).2.2.2.2.2.2.1 31 ⟨[], []⟩ 2 [] 0 0x3F (by decide)
      (by decide) (by decide) (by decide)).trans (by decide),
    ⟨_, rfl, (cr_bit_by_call_site make_fcs_0710).2.2.2.1 3 watch_state _
      { idle_wake 6 with sel := 1, ports := [⟨true, 1, [0x41], 0⟩] } rfl⟩,
    ⟨_, rfl, (cr_bit_by_call_site make_fcs_0710).2.2.2.2.1 3 demo_state _ (bringup_ok 0) 0 rfl⟩⟩

end Gsm0710
